import Mathlib

/-!
Verification of the `cslam` distributed pose-graph back-end, a shallow
embedding of `src/back_end/pose_graph_manager.cpp`.

The mutable state of the C++ class `PoseGraphManager` becomes the record
`Machine P`, parametrised by the pose type `P` (GTSAM `Pose3`; the code
only composes poses with `*` and `.inverse()`, so `Mul P` and `Inv P`
suffice).  `gtsam::Values` becomes an association list keyed by
`LabeledSymbol` whose `insert` fails on a duplicate key, exactly as the
C++ library throws.  `std::map` fields become association lists (with
`std::map::insert` = insert-if-absent, `operator[]` = assign / lookup
with default).  Fallible C++ operations (throwing inserts, dereferencing
the result of a failed `dynamic_pointer_cast`, dereferencing the null
shared pointers produced by `operator[]` on a missing entry of
`other_robots_graph_and_estimates_`) are modelled in `Except`.

The breadth-first search of `connected_robot_pose_graph` is modelled
twice: an idealised run where `visited` is an unbounded set and every
index used to address the C++ `visited` array is recorded
(`bfsTouched`), and a bounds-checked run where `visited` is the actual
array of `current_neighbors.size()` booleans allocated by the source,
failing on any out-of-bounds index.  The loop is written with explicit
fuel; all theorems about it hold for every fuel value, and the wrapper
uses a fuel that dominates the number of queue pops (one plus the total
length of all received connectivity lists, since every pushed id is
marked visited and hence pushed at most once).
-/

namespace Cslam

/-- Modelled from the spec: `ROBOT_LABEL` lives in a header that is not
among the sources; the spec says it derives a robot label from a robot id
by a printable-ASCII offset and that any bijection suffices. -/
def ROBOT_LABEL (id : Nat) : Nat := id + 97

/-- Modelled from the spec: inverse of `ROBOT_LABEL`. -/
def ROBOT_ID (label : Nat) : Nat := label - 97

/-- Modelled from the spec: the fixed tag for pose-graph variables. -/
def GRAPH_LABEL : Nat := 120

/-- A `gtsam::LabeledSymbol`: the fixed graph tag, a robot label and a
keyframe index. -/
structure LabeledSymbol where
  c : Nat
  label : Nat
  index : Nat
deriving DecidableEq

/-- The default diagonal noise sigmas: three rotation sigmas (0.01 rad)
then three translation sigmas (0.1 m). -/
def defaultNoiseModel : List Rat := [1/100, 1/100, 1/100, 1/10, 1/10, 1/10]

/-- A `gtsam::BetweenFactor<gtsam::Pose3>`. -/
structure BetweenFactor (P : Type) where
  key1 : LabeledSymbol
  key2 : LabeledSymbol
  measured : P
  noise : List Rat
deriving DecidableEq

/-- A generic `gtsam::NonlinearFactor` as it arrives from a neighbour:
either a between-factor over `Pose3` (the downcast succeeds) or anything
else (the downcast yields a null pointer). -/
inductive RawFactor (P : Type) where
  | between (f : BetweenFactor P)
  | other
deriving DecidableEq

/-- Lookup in an association list, first entry wins (as in `std::map`,
whose keys are unique). -/
def assocLookup {κ α : Type} [DecidableEq κ] : List (κ × α) → κ → Option α
  | [], _ => none
  | (k0, v) :: rest, k => if k0 = k then some v else assocLookup rest k

/-- Lookup with a default value (the behaviour of `std::map::operator[]`
on the reading side: a missing key denotes the value-initialised
default). -/
def assocLookupD {κ α : Type} [DecidableEq κ] (l : List (κ × α)) (k : κ) (d : α) : α :=
  (assocLookup l k).getD d

/-- The behaviour of `std::map::insert`: keep the existing entry if the
key is already present. -/
def assocInsertIfAbsent {κ α : Type} [DecidableEq κ] (l : List (κ × α)) (k : κ) (v : α) :
    List (κ × α) :=
  match assocLookup l k with
  | some _ => l
  | none => l ++ [(k, v)]

/-- The behaviour of `std::map::operator[] = v`: overwrite the entry if
present, append it otherwise. -/
def assocAssign {κ α : Type} [DecidableEq κ] : List (κ × α) → κ → α → List (κ × α)
  | [], k, v => [(k, v)]
  | (k0, v0) :: rest, k, v =>
      if k0 = k then (k0, v) :: rest else (k0, v0) :: assocAssign rest k v

/-- Key membership in a `gtsam::Values`. -/
def valuesContains {P : Type} (vs : List (LabeledSymbol × P)) (k : LabeledSymbol) : Bool :=
  vs.any (fun e => decide (e.1 = k))

/-- `gtsam::Values::insert(key, value)`: throws if the key exists. -/
def valuesInsert {P : Type} (vs : List (LabeledSymbol × P)) (k : LabeledSymbol) (v : P) :
    Except String (List (LabeledSymbol × P)) :=
  if valuesContains vs k then Except.error "values key already exists"
  else Except.ok (vs ++ [(k, v)])

/-- `gtsam::Values::insert(const Values &)`: inserts entry by entry,
throwing at the first duplicate key. -/
def valuesInsertAll {P : Type} (vs other : List (LabeledSymbol × P)) :
    Except String (List (LabeledSymbol × P)) :=
  other.foldlM (fun acc e => valuesInsert acc e.1 e.2) vs

/-- Insertion into an `std::set` represented as a duplicate-free list. -/
def setInsert (l : List Nat) (x : Nat) : List Nat :=
  if x ∈ l then l else l ++ [x]

/-- The four states of the optimizer state machine. -/
inductive OptimizerState where
  | IDLE
  | POSEGRAPH_COLLECTION
  | WAITING
  | OPTIMIZATION
deriving DecidableEq

/-- The whole mutable state of `PoseGraphManager`.  The "latest local"
pair replaces the sentinel comparison `latest_local_symbol_ !=
gtsam::LabeledSymbol()` of the C++ with an `Option`; the loop-closure
store is the total lookup function of the `std::map` (value-initialised
entries read as the empty list, which also covers the constructor's
initialisation of every pair below `nb_robots`). -/
structure Machine (P : Type) where
  robot_id : Nat
  nb_robots : Nat
  pose_graph : List (BetweenFactor P)
  current_pose_estimates : List (LabeledSymbol × P)
  latest_local : Option (LabeledSymbol × P)
  inter_robot_loop_closures : Nat × Nat → List (BetweenFactor P)
  current_neighbors : List Nat
  received_pose_graphs : Nat → Bool
  other_robots_graph_and_estimates : List (Nat × (List (RawFactor P) × List (LabeledSymbol × P)))
  received_pose_graphs_connectivity : List (Nat × List Nat)
  optimizer_state : OptimizerState
  is_waiting : Bool
  start_waiting_time : Int
  max_waiting_time_sec : Int

/-- The symbol of one of this robot's own keyframes. -/
def localSymbol (rid idx : Nat) : LabeledSymbol :=
  ⟨GRAPH_LABEL, ROBOT_LABEL rid, idx⟩

/-- The fresh state right after the constructor ran. -/
def initMachine (P : Type) (rid nb : Nat) (maxWait : Int) : Machine P :=
  { robot_id := rid
    nb_robots := nb
    pose_graph := []
    current_pose_estimates := []
    latest_local := none
    inter_robot_loop_closures := fun _ => []
    current_neighbors := []
    received_pose_graphs := fun _ => false
    other_robots_graph_and_estimates := []
    received_pose_graphs_connectivity := []
    optimizer_state := OptimizerState.IDLE
    is_waiting := false
    start_waiting_time := 0
    max_waiting_time_sec := maxWait }

/-- `odometry_callback`: build the keyframe symbol, insert the estimate
(throwing on a duplicate keyframe id), and if a previous keyframe
exists, append the between-factor measuring `pose * previous_pose⁻¹`. -/
def odometry_callback {P : Type} [Mul P] [Inv P] (st : Machine P) (msg : Nat × P) :
    Except String (Machine P) := do
  let est ← valuesInsert st.current_pose_estimates (localSymbol st.robot_id msg.1) msg.2
  Except.ok { st with
    current_pose_estimates := est
    pose_graph :=
      match st.latest_local with
      | none => st.pose_graph
      | some lp => st.pose_graph ++
          [⟨lp.1, localSymbol st.robot_id msg.1, msg.2 * lp.2⁻¹, defaultNoiseModel⟩]
    latest_local := some (localSymbol st.robot_id msg.1, msg.2) }

/-- Folding a whole FIFO stream of keyframe odometry events. -/
def ingestAll {P : Type} [Mul P] [Inv P] (st : Machine P) (events : List (Nat × P)) :
    Except String (Machine P) :=
  events.foldlM odometry_callback st

/-- The odometry between-factors produced by a stream of keyframe
events, given the keyframe the builder saw last (if any): one factor per
consecutive pair, measuring `next * previous⁻¹`. -/
def chainFactors {P : Type} [Mul P] [Inv P] (rid : Nat) :
    Option (LabeledSymbol × P) → List (Nat × P) → List (BetweenFactor P)
  | _, [] => []
  | none, e :: es => chainFactors rid (some (localSymbol rid e.1, e.2)) es
  | some lp, e :: es =>
      ⟨lp.1, localSymbol rid e.1, e.2 * lp.2⁻¹, defaultNoiseModel⟩ ::
        chainFactors rid (some (localSymbol rid e.1, e.2)) es

/-- An `/inter_robot_loop_closure` message. -/
structure InterRobotLoopClosureMsg (P : Type) where
  success : Bool
  robot0_id : Nat
  robot0_image_id : Nat
  robot1_id : Nat
  robot1_image_id : Nat
  transform : P

/-- `inter_robot_loop_closure_callback`: on success, append the factor to
the store entry of the unordered robot pair; drop failures silently. -/
def inter_robot_loop_closure_callback {P : Type} (st : Machine P)
    (msg : InterRobotLoopClosureMsg P) : Machine P :=
  if msg.success then
    let f : BetweenFactor P :=
      ⟨⟨GRAPH_LABEL, ROBOT_LABEL msg.robot0_id, msg.robot0_image_id⟩,
       ⟨GRAPH_LABEL, ROBOT_LABEL msg.robot1_id, msg.robot1_image_id⟩,
       msg.transform, defaultNoiseModel⟩
    let key := (Nat.min msg.robot0_id msg.robot1_id, Nat.max msg.robot0_id msg.robot1_id)
    { st with inter_robot_loop_closures := fun p =>
        if p = key then st.inter_robot_loop_closures p ++ [f]
        else st.inter_robot_loop_closures p }
  else st

/-- `current_neighbors_callback`: record the ids, go to
`POSEGRAPH_COLLECTION` and end the wait. -/
def current_neighbors_callback {P : Type} (st : Machine P) (ids : List Nat) : Machine P :=
  { st with
    current_neighbors := ids
    optimizer_state := OptimizerState.POSEGRAPH_COLLECTION
    is_waiting := false }

/-- The `/pose_graph` message published by `get_pose_graph_callback` and
consumed by `pose_graph_callback`. -/
structure PoseGraphMsg (P : Type) where
  robot_id : Nat
  values : List (LabeledSymbol × P)
  edges : List (RawFactor P)
  connected_robots : List Nat

/-- All position pairs `(l[i], l[j])` with `i < j`, in the order the two
nested loops of the source enumerate them. -/
def positionPairs : List Nat → List (Nat × Nat)
  | [] => []
  | x :: xs => xs.map (fun y => (x, y)) ++ positionPairs xs

/-- One iteration of the double loop of `get_pose_graph_callback`: for a
pair of requested ids, if the store entry of the unordered pair is
non-empty, declare the larger id connected, and additionally ship the
stored factors when the smaller id is this robot. -/
def servePairStep {P : Type} (st : Machine P)
    (acc : List (BetweenFactor P) × List Nat) (pr : Nat × Nat) :
    List (BetweenFactor P) × List Nat :=
  if 0 < (st.inter_robot_loop_closures (Nat.min pr.1 pr.2, Nat.max pr.1 pr.2)).length then
    if Nat.min pr.1 pr.2 = st.robot_id then
      (acc.1 ++ st.inter_robot_loop_closures (Nat.min pr.1 pr.2, Nat.max pr.1 pr.2),
        setInsert acc.2 (Nat.max pr.1 pr.2))
    else (acc.1, setInsert acc.2 (Nat.max pr.1 pr.2))
  else acc

/-- `get_pose_graph_callback`: serve the snapshot of the estimates, the
local graph plus the loop closures this robot owns within the requested
id set, and the connectivity declaration. -/
def get_pose_graph_callback {P : Type} (st : Machine P) (ids : List Nat) : PoseGraphMsg P :=
  let folded := (positionPairs ids).foldl (servePairStep st) (st.pose_graph, [])
  { robot_id := st.robot_id
    values := st.current_pose_estimates
    edges := folded.1.map RawFactor.between
    connected_robots := folded.2 }

/-- `check_received_pose_graphs`: the conjunction of the received flags
over the current neighbours. -/
def check_received_pose_graphs {P : Type} (st : Machine P) : Bool :=
  st.current_neighbors.all (fun id => st.received_pose_graphs id)

/-- `pose_graph_callback`: record the neighbour's sub-graph, flag it
received, record its connectivity declaration, and if every current
neighbour has been received, end the wait and go to `OPTIMIZATION`. -/
def pose_graph_callback {P : Type} (st : Machine P) (msg : PoseGraphMsg P) : Machine P :=
  let st1 := { st with
    other_robots_graph_and_estimates :=
      assocInsertIfAbsent st.other_robots_graph_and_estimates msg.robot_id
        (msg.edges, msg.values)
    received_pose_graphs := fun i => if i = msg.robot_id then true else st.received_pose_graphs i
    received_pose_graphs_connectivity :=
      assocInsertIfAbsent st.received_pose_graphs_connectivity msg.robot_id
        msg.connected_robots }
  if check_received_pose_graphs st1 then
    { st1 with is_waiting := false, optimizer_state := OptimizerState.OPTIMIZATION }
  else st1

/-- The state of the idealised breadth-first search of
`connected_robot_pose_graph`: the `is_robot_connected` map being built,
the set of visited ids (the C++ `visited` array without its size limit),
the queue, and the list of every index used to address the C++ `visited`
array so far. -/
structure BfsState where
  conn_map : List (Nat × Bool)
  visited : List Nat
  queue : List Nat
  touched : List Nat

/-- One iteration of the inner loop of the search, for one id of the
connectivity list of the dequeued robot: set `is_robot_connected[id] =
true`, then read `visited[id]` and, if unvisited, mark it and enqueue
it.  The id is recorded as an address into the `visited` array. -/
def bfsVisitOne (s : BfsState) (id : Nat) : BfsState :=
  if id ∈ s.visited then
    { s with conn_map := assocAssign s.conn_map id true, touched := s.touched ++ [id] }
  else
    { conn_map := assocAssign s.conn_map id true
      visited := s.visited ++ [id]
      queue := s.queue ++ [id]
      touched := s.touched ++ [id] }

/-- The outer loop of the search, with explicit fuel bounding the number
of queue pops. -/
def bfsLoop (conn : Nat → List Nat) : Nat → BfsState → BfsState
  | 0, s => s
  | fuel + 1, s =>
      match s.queue with
      | [] => s
      | c :: rest => bfsLoop conn fuel ((conn c).foldl bfsVisitOne { s with queue := rest })

/-- The connectivity list the search reads for a dequeued robot:
`received_pose_graphs_connectivity_[id]`, a missing entry reading as the
value-initialised empty vector. -/
def connOf {P : Type} (st : Machine P) (c : Nat) : List Nat :=
  assocLookupD st.received_pose_graphs_connectivity c []

/-- Fuel that dominates the number of queue pops: every pushed id is
marked visited when pushed and never re-pushed, and all pushed ids after
the initial one come from the received connectivity lists. -/
def bfsFuel {P : Type} (st : Machine P) : Nat :=
  1 + (st.received_pose_graphs_connectivity.map (fun e => e.2.length)).sum

/-- The `is_robot_connected` map before the search: insert this robot as
true, then every current neighbour as false (`std::map::insert`, which
keeps an existing entry). -/
def bfsInitMap {P : Type} (st : Machine P) : List (Nat × Bool) :=
  st.current_neighbors.foldl (fun m id => assocInsertIfAbsent m id false)
    (assocInsertIfAbsent [] st.robot_id true)

/-- The idealised run of the search, starting from this robot (whose id
is the first index written into the `visited` array). -/
def bfsRun {P : Type} (st : Machine P) : BfsState :=
  bfsLoop (connOf st) (bfsFuel st)
    { conn_map := bfsInitMap st
      visited := [st.robot_id]
      queue := [st.robot_id]
      touched := [st.robot_id] }

/-- `connected_robot_pose_graph`, under the idealised `visited` array. -/
def connected_robot_pose_graph {P : Type} (st : Machine P) : List (Nat × Bool) :=
  (bfsRun st).conn_map

/-- Every index used to address the `visited` array during the search. -/
def bfsTouched {P : Type} (st : Machine P) : List Nat :=
  (bfsRun st).touched

/-- The state of the bounds-checked search: `visited` is the actual
array of `current_neighbors.size()` booleans the source allocates. -/
structure BfsCState where
  conn_map : List (Nat × Bool)
  visited : List Bool
  queue : List Nat

/-- Read `visited[i]`, failing when the index is outside the allocated
array. -/
def arrayGet (a : List Bool) (i : Nat) : Except String Bool :=
  match a[i]? with
  | some b => Except.ok b
  | none => Except.error "visited read out of bounds"

/-- Write `visited[i]`, failing when the index is outside the allocated
array. -/
def arraySet (a : List Bool) (i : Nat) (v : Bool) : Except String (List Bool) :=
  if i < a.length then Except.ok (a.set i v) else Except.error "visited write out of bounds"

/-- One bounds-checked iteration of the inner loop of the search. -/
def bfsVisitOneChecked (s : BfsCState) (id : Nat) : Except String BfsCState := do
  let b ← arrayGet s.visited id
  if b then Except.ok { s with conn_map := assocAssign s.conn_map id true }
  else do
    let v ← arraySet s.visited id true
    Except.ok { conn_map := assocAssign s.conn_map id true, visited := v, queue := s.queue ++ [id] }

/-- The bounds-checked outer loop. -/
def bfsLoopChecked (conn : Nat → List Nat) : Nat → BfsCState → Except String BfsCState
  | 0, s => Except.ok s
  | fuel + 1, s =>
      match s.queue with
      | [] => Except.ok s
      | c :: rest => do
          let s1 ← (conn c).foldlM bfsVisitOneChecked { s with queue := rest }
          bfsLoopChecked conn fuel s1

/-- `connected_robot_pose_graph` with the `visited` array given exactly
its allocated size `current_neighbors.size()`: the run fails at the
first out-of-bounds access. -/
def connected_robot_pose_graph_checked {P : Type} (st : Machine P) :
    Except String (List (Nat × Bool)) := do
  let v1 ← arraySet (List.replicate st.current_neighbors.length false) st.robot_id true
  let s ← bfsLoopChecked (connOf st) (bfsFuel st)
    { conn_map := bfsInitMap st, visited := v1, queue := [st.robot_id] }
  Except.ok s.conn_map

/-- `boost::dynamic_pointer_cast<BetweenFactor<Pose3>>` followed by the
unchecked dereference of the result: a non-between factor yields a null
pointer whose dereference is modelled as an error. -/
def castBetween {P : Type} : RawFactor P → Except String (BetweenFactor P)
  | RawFactor.between f => Except.ok f
  | RawFactor.other => Except.error "null between factor dereference"

/-- `other_robots_graph_and_estimates_[id]` followed by dereferencing the
stored shared pointers: a missing entry default-constructs null pointers
whose dereference is modelled as an error. -/
def getOtherEntry {P : Type} (st : Machine P) (id : Nat) :
    Except String (List (RawFactor P) × List (LabeledSymbol × P)) :=
  match assocLookup st.other_robots_graph_and_estimates id with
  | some e => Except.ok e
  | none => Except.error "null pose graph dereference"

/-- One iteration of the double loop over the unordered pairs drawn from
neighbours plus self: when both pair members are connected, append the
stored loop closures of the pair. -/
def lcStep {P : Type} (st : Machine P) (is_connected : List (Nat × Bool))
    (acc : List (BetweenFactor P)) (pr : Nat × Nat) : List (BetweenFactor P) :=
  if assocLookupD is_connected pr.1 false && assocLookupD is_connected pr.2 false then
    acc ++ st.inter_robot_loop_closures (Nat.min pr.1 pr.2, Nat.max pr.1 pr.2)
  else acc

/-- The stored loop closures shipped by the aggregator. -/
def aggLoopClosures {P : Type} (st : Machine P) (is_connected : List (Nat × Bool)) :
    List (BetweenFactor P) :=
  (positionPairs (st.current_neighbors ++ [st.robot_id])).foldl (lcStep st is_connected) []

/-- One iteration of the estimates loop: for a connected neighbour,
dereference its entry and insert its values (throwing on a duplicate
key). -/
def estStep {P : Type} (st : Machine P) (is_connected : List (Nat × Bool))
    (acc : List (LabeledSymbol × P)) (id : Nat) : Except String (List (LabeledSymbol × P)) :=
  if assocLookupD is_connected id false then do
    let entry ← getOtherEntry st id
    valuesInsertAll acc entry.2
  else Except.ok acc

/-- One iteration of the received-factor loop: downcast (dereferencing
the null result on failure), extract the two endpoint robot ids, and
append only when both are connected. -/
def factorStep {P : Type} (is_connected : List (Nat × Bool))
    (g : List (BetweenFactor P)) (f : RawFactor P) : Except String (List (BetweenFactor P)) := do
  let bf ← castBetween f
  if assocLookupD is_connected (ROBOT_ID bf.key1.label) false &&
      assocLookupD is_connected (ROBOT_ID bf.key2.label) false then
    Except.ok (g ++ [bf])
  else Except.ok g

/-- The per-neighbour part of the received-factor loop (the entry is
dereferenced whether or not the neighbour is connected). -/
def neighborGraphStep {P : Type} (st : Machine P) (is_connected : List (Nat × Bool))
    (acc : List (BetweenFactor P)) (id : Nat) : Except String (List (BetweenFactor P)) := do
  let entry ← getOtherEntry st id
  entry.1.foldlM (factorStep is_connected) acc

/-- `aggregate_pose_graphs`: compute connectivity, push the local graph,
push the stored loop closures of every connected unordered pair drawn
from neighbours plus self, insert the local estimates, insert every
connected neighbour's estimates, then re-push every received factor
whose two endpoint robots are connected. -/
def aggregate_pose_graphs {P : Type} (st : Machine P) :
    Except String (List (BetweenFactor P) × List (LabeledSymbol × P)) := do
  let est0 ← valuesInsertAll [] st.current_pose_estimates
  let est1 ← st.current_neighbors.foldlM (estStep st (connected_robot_pose_graph st)) est0
  let graph2 ← st.current_neighbors.foldlM
    (neighborGraphStep st (connected_robot_pose_graph st))
    (st.pose_graph ++ aggLoopClosures st (connected_robot_pose_graph st))
  Except.ok (graph2, est1)

/-- A factor of the joint graph handed to the optimizer: the aggregated
between-factors plus the gauge-fixing prior. -/
inductive JointFactor (P : Type) where
  | between (f : BetweenFactor P)
  | prior (key : LabeledSymbol) (value : P) (noise : List Rat)

/-- Modelled from the spec: the GNC-wrapped Levenberg-Marquardt solver is
an external collaborator out of scope; only the fact that it returns
estimate values matters here, so it is modelled as returning the initial
values. -/
def gncOptimize {P : Type} (_graph : List (JointFactor P))
    (initial : List (LabeledSymbol × P)) : List (LabeledSymbol × P) :=
  initial

/-- `perform_optimization`: aggregate, add the identity prior on keyframe
zero, optimize, and return the content of the published
`OptimizationResult` message. -/
def perform_optimization {P : Type} [One P] (st : Machine P) :
    Except String (List (JointFactor P) × List (LabeledSymbol × P)) := do
  let ge ← aggregate_pose_graphs st
  Except.ok (ge.1.map JointFactor.between ++
      [JointFactor.prior (localSymbol st.robot_id 0) 1 defaultNoiseModel],
    gncOptimize (ge.1.map JointFactor.between ++
      [JointFactor.prior (localSymbol st.robot_id 0) 1 defaultNoiseModel]) ge.2)

/-- A message published by the manager. -/
inductive OutMsg (P : Type) where
  | optimizationResult (factors : List (JointFactor P)) (estimates : List (LabeledSymbol × P))
  | optimizerStateMsg (s : OptimizerState)
  | getPoseGraphRequest (target : Nat) (ids : List Nat)
  | getCurrentNeighbors

/-- `start_waiting`: go to `WAITING` and take the timestamp. -/
def start_waiting {P : Type} (st : Machine P) (now : Int) : Machine P :=
  { st with
    optimizer_state := OptimizerState.WAITING
    is_waiting := true
    start_waiting_time := now }

/-- `end_waiting`. -/
def end_waiting {P : Type} (st : Machine P) : Machine P :=
  { st with is_waiting := false }

/-- `check_waiting_timeout`: when the elapsed time strictly exceeds the
maximum, end the wait and fall back to `IDLE`. -/
def check_waiting_timeout {P : Type} (st : Machine P) (now : Int) : Machine P :=
  if st.max_waiting_time_sec < now - st.start_waiting_time then
    { st with is_waiting := false, optimizer_state := OptimizerState.IDLE }
  else st

/-- `reinitialize_received_pose_graphs`: clear the flags below
`nb_robots` and both per-round maps. -/
def reinitialize_received_pose_graphs {P : Type} (st : Machine P) : Machine P :=
  { st with
    received_pose_graphs := fun i => if i < st.nb_robots then false else st.received_pose_graphs i
    other_robots_graph_and_estimates := []
    received_pose_graphs_connectivity := [] }

/-- `optimization_callback` (the trigger tick): from `IDLE`, reset the
exchange state, request the neighbours and start waiting. -/
def optimization_callback {P : Type} (st : Machine P) (now : Int) :
    Machine P × List (OutMsg P) :=
  if st.optimizer_state = OptimizerState.IDLE then
    (start_waiting (reinitialize_received_pose_graphs st) now, [OutMsg.getCurrentNeighbors])
  else (st, [])

/-- `optimization_loop_callback` (the loop tick): guarded by non-empty
local estimates, dispatch on the state; every tick ends by publishing
the current state. -/
def optimization_loop_callback {P : Type} [One P] (st : Machine P) (now : Int) :
    Except String (Machine P × List (OutMsg P)) := do
  let step ←
    (if st.current_pose_estimates.isEmpty then Except.ok (st, ([] : List (OutMsg P)))
     else
       match st.optimizer_state with
       | OptimizerState.POSEGRAPH_COLLECTION =>
           if 0 < st.current_neighbors.length then
             Except.ok (start_waiting st now,
               st.current_neighbors.map (fun id =>
                 OutMsg.getPoseGraphRequest id (st.current_neighbors ++ [st.robot_id])))
           else Except.ok ({ st with optimizer_state := OptimizerState.IDLE }, [])
       | OptimizerState.OPTIMIZATION => do
           let res ← perform_optimization st
           Except.ok ({ st with optimizer_state := OptimizerState.IDLE },
             [OutMsg.optimizationResult res.1 res.2])
       | OptimizerState.WAITING => Except.ok (check_waiting_timeout st now, [])
       | OptimizerState.IDLE => Except.ok (st, []))
  Except.ok (step.1, step.2 ++ [OutMsg.optimizerStateMsg step.1.optimizer_state])

/-- A sequence of loop ticks at the given clock readings, accumulating
every published message. -/
def loopTicks {P : Type} [One P] : Machine P → List Int → Except String (Machine P × List (OutMsg P))
  | st, [] => Except.ok (st, [])
  | st, t :: ts => do
      let r1 ← optimization_loop_callback st t
      let r2 ← loopTicks r1.1 ts
      Except.ok (r2.1, r1.2 ++ r2.2)

/-! ### Concrete states used by witnesses and counterexamples -/

/-- A machine with no current neighbours, waiting for sub-graphs. -/
def exMachine10 : Machine PUnit :=
  { initMachine PUnit 0 3 60 with
    optimizer_state := OptimizerState.WAITING
    is_waiting := true }

/-- A sub-graph message from some robot. -/
def exMsg10 : PoseGraphMsg PUnit :=
  { robot_id := 1, values := [], edges := [], connected_robots := [] }

/-! ### Helper lemmas -/

theorem exceptBind_ok {α β : Type} (a : α) (f : α → Except String β) :
    (Except.ok a >>= f) = f a := rfl

theorem exceptBind_error {α β : Type} (e : String) (f : α → Except String β) :
    ((Except.error e : Except String α) >>= f) = Except.error e := rfl

theorem except_not_ok_error {α : Type} (x : Except String α)
    (h : ∀ r, x ≠ Except.ok r) : ∃ e, x = Except.error e := by
  cases x with
  | error e => exact ⟨e, rfl⟩
  | ok r => exact absurd rfl (h r)

theorem assocLookup_mem {κ α : Type} [DecidableEq κ] :
    ∀ (l : List (κ × α)) (k : κ) (v : α), assocLookup l k = some v → (k, v) ∈ l := by
  intro l
  induction l with
  | nil => intro k v h; simp [assocLookup] at h
  | cons hd tl ih =>
      intro k v h
      cases hd with
      | mk k0 v0 =>
          by_cases hk : k0 = k
          · subst hk
            simp [assocLookup] at h
            subst h
            exact List.mem_cons_self _ _
          · simp [assocLookup, hk] at h
            exact List.mem_cons_of_mem _ (ih k v h)

theorem assocLookup_append_left {κ α : Type} [DecidableEq κ] :
    ∀ (l l2 : List (κ × α)) (k : κ) (v : α),
      assocLookup l k = some v → assocLookup (l ++ l2) k = some v := by
  intro l
  induction l with
  | nil => intro l2 k v h; simp [assocLookup] at h
  | cons hd tl ih =>
      intro l2 k v h
      cases hd with
      | mk k0 v0 =>
          by_cases hk : k0 = k
          · simp [assocLookup, hk] at h ⊢; exact h
          · simp [assocLookup, hk] at h ⊢; exact ih l2 k v h

theorem assocLookup_insertIfAbsent_pres {κ α : Type} [DecidableEq κ]
    (l : List (κ × α)) (k k0 : κ) (v v0 : α) (h : assocLookup l k = some v) :
    assocLookup (assocInsertIfAbsent l k0 v0) k = some v := by
  unfold assocInsertIfAbsent
  cases hl : assocLookup l k0 with
  | some w => exact h
  | none => exact assocLookup_append_left l [(k0, v0)] k v h

theorem assocLookup_insertIfAbsent_inv {κ α : Type} [DecidableEq κ]
    (l : List (κ × α)) (k k0 : κ) (v v0 : α)
    (h : assocLookup (assocInsertIfAbsent l k0 v0) k = some v) :
    assocLookup l k = some v ∨ v = v0 := by
  unfold assocInsertIfAbsent at h
  cases hl : assocLookup l k0 with
  | some w => rw [hl] at h; exact Or.inl h
  | none =>
      rw [hl] at h
      cases hv : assocLookup l k with
      | some w =>
          have h2 := assocLookup_append_left l [(k0, v0)] k w hv
          rw [h2] at h
          injection h with hw
          exact Or.inl (congrArg some hw)
      | none =>
          right
          clear hl
          induction l with
          | nil =>
              simp [assocLookup] at h
              by_cases hk : k0 = k <;> simp_all [assocLookup]
          | cons hd tl ih =>
              cases hd with
              | mk k1 v1 =>
                  by_cases hk : k1 = k
                  · simp [assocLookup, hk] at hv
                  · simp [assocLookup, hk] at h hv
                    exact ih h hv

theorem assocLookup_assign {κ α : Type} [DecidableEq κ] :
    ∀ (l : List (κ × α)) (k x : κ) (v : α),
      assocLookup (assocAssign l k v) x = if k = x then some v else assocLookup l x := by
  intro l
  induction l with
  | nil =>
      intro k x v
      by_cases hk : k = x <;> simp [assocAssign, assocLookup, hk]
  | cons hd tl ih =>
      intro k x v
      cases hd with
      | mk k0 v0 =>
          by_cases h0 : k0 = k
          · subst h0
            by_cases hx : k0 = x <;> simp [assocAssign, assocLookup, hx]
          · by_cases hx : k0 = x
            · subst hx
              have hkx : ¬ k = k0 := fun he => h0 he.symm
              simp [assocAssign, assocLookup, h0, hkx]
            · simp [assocAssign, assocLookup, h0, hx, ih]

theorem assocLookupD_assign {κ α : Type} [DecidableEq κ]
    (l : List (κ × α)) (k x : κ) (v d : α) :
    assocLookupD (assocAssign l k v) x d = if k = x then v else assocLookupD l x d := by
  unfold assocLookupD
  rw [assocLookup_assign]
  by_cases hk : k = x <;> simp [hk]

theorem valuesContains_append {P : Type} (vs ws : List (LabeledSymbol × P)) (k : LabeledSymbol) :
    valuesContains (vs ++ ws) k = (valuesContains vs k || valuesContains ws k) := by
  unfold valuesContains
  simp [List.any_append]

theorem valuesInsertAll_ok_eq {P : Type} :
    ∀ (l vs r : List (LabeledSymbol × P)),
      valuesInsertAll vs l = Except.ok r → r = vs ++ l := by
  intro l
  induction l with
  | nil => intro vs r h; cases h; simp
  | cons hd tl ih =>
      intro vs r h
      unfold valuesInsertAll at h
      rw [List.foldlM_cons] at h
      cases hin : valuesInsert vs hd.1 hd.2 with
      | error e => rw [hin, exceptBind_error] at h; cases h
      | ok vs1 =>
          rw [hin, exceptBind_ok] at h
          have h1 : vs1 = vs ++ [(hd.1, hd.2)] := by
            unfold valuesInsert at hin
            by_cases hc : valuesContains vs hd.1 <;> simp [hc] at hin
            exact hin.symm
          have := ih vs1 r h
          rw [this, h1]
          simp

theorem valuesInsertAll_ok_fresh {P : Type} :
    ∀ (l vs r : List (LabeledSymbol × P)),
      valuesInsertAll vs l = Except.ok r →
      ∀ e ∈ l, valuesContains vs e.1 = false := by
  intro l
  induction l with
  | nil => intro vs r _ e he; cases he
  | cons hd tl ih =>
      intro vs r h e he
      unfold valuesInsertAll at h
      rw [List.foldlM_cons] at h
      cases hin : valuesInsert vs hd.1 hd.2 with
      | error er => rw [hin, exceptBind_error] at h; cases h
      | ok vs1 =>
          rw [hin, exceptBind_ok] at h
          have h1 : vs1 = vs ++ [(hd.1, hd.2)] ∧ valuesContains vs hd.1 = false := by
            unfold valuesInsert at hin
            by_cases hc : valuesContains vs hd.1 <;> simp [hc] at hin
            exact ⟨hin.symm, by simpa using hc⟩
          rcases List.mem_cons.mp he with he1 | he2
          · subst he1; exact h1.2
          · have := ih vs1 r h e he2
            rw [h1.1, valuesContains_append] at this
            exact (Bool.or_eq_false_iff.mp this).1

theorem valuesInsertAll_collision {P : Type} (l vs : List (LabeledSymbol × P))
    (e : LabeledSymbol × P) (he : e ∈ l) (hc : valuesContains vs e.1 = true) :
    ∀ r, valuesInsertAll vs l ≠ Except.ok r := by
  intro r h
  have := valuesInsertAll_ok_fresh l vs r h e he
  rw [hc] at this
  cases this

/-! ### Claim C10: a single sub-graph with no neighbours completes the round -/

/-- Claim C10: if `current_neighbors` is empty, receiving any single
`/pose_graph` message ends the wait and moves the optimizer state to
`OPTIMIZATION`, because the all-received check is vacuously true. -/
theorem pose_graph_callback_no_neighbors {P : Type} (st : Machine P) (msg : PoseGraphMsg P)
    (h : st.current_neighbors = []) :
    (pose_graph_callback st msg).optimizer_state = OptimizerState.OPTIMIZATION ∧
    (pose_graph_callback st msg).is_waiting = false := by
  unfold pose_graph_callback check_received_pose_graphs
  simp [h]

/-- Witness for claim C10 at a concrete machine and message. -/
theorem pose_graph_callback_no_neighbors_witness :
    exMachine10.current_neighbors = [] ∧
    ((pose_graph_callback exMachine10 exMsg10).optimizer_state = OptimizerState.OPTIMIZATION ∧
     (pose_graph_callback exMachine10 exMsg10).is_waiting = false) :=
  ⟨rfl, pose_graph_callback_no_neighbors exMachine10 exMsg10 rfl⟩

/-! ### Claim C7: rounds in WAITING time out to IDLE -/

/-- A waiting machine with non-empty local estimates, one second of
allowed waiting time, and the wait started at time zero. -/
def exMachine7 : Machine PUnit :=
  { initMachine PUnit 0 2 1 with
    optimizer_state := OptimizerState.WAITING
    is_waiting := true
    current_pose_estimates := [(localSymbol 0 0, PUnit.unit)] }

/-- A waiting machine exactly like `exMachine7` but with empty local
estimates. -/
def exMachine7c : Machine PUnit :=
  { initMachine PUnit 0 2 1 with
    optimizer_state := OptimizerState.WAITING
    is_waiting := true }

theorem check_waiting_timeout_preserves {P : Type} (st : Machine P) (now : Int) :
    (check_waiting_timeout st now).current_pose_estimates = st.current_pose_estimates ∧
    (check_waiting_timeout st now).start_waiting_time = st.start_waiting_time ∧
    (check_waiting_timeout st now).max_waiting_time_sec = st.max_waiting_time_sec := by
  unfold check_waiting_timeout
  split <;> exact ⟨rfl, rfl, rfl⟩

theorem optimization_loop_callback_waiting {P : Type} [One P] (st : Machine P) (now : Int)
    (hne : st.current_pose_estimates.isEmpty = false)
    (hw : st.optimizer_state = OptimizerState.WAITING) :
    optimization_loop_callback st now =
      Except.ok (check_waiting_timeout st now,
        [OutMsg.optimizerStateMsg (check_waiting_timeout st now).optimizer_state]) := by
  unfold optimization_loop_callback
  rw [hne, hw]
  rfl

theorem loopTicks_cons_eq {P : Type} [One P] (st st1 st2 : Machine P) (t : Int) (ts : List Int)
    (out1 out2 : List (OutMsg P))
    (h1 : optimization_loop_callback st t = Except.ok (st1, out1))
    (h2 : loopTicks st1 ts = Except.ok (st2, out2)) :
    loopTicks st (t :: ts) = Except.ok (st2, out1 ++ out2) := by
  have hdef : loopTicks st (t :: ts) =
      (optimization_loop_callback st t >>= fun r1 =>
        loopTicks r1.1 ts >>= fun r2 => Except.ok (r2.1, r1.2 ++ r2.2)) := rfl
  rw [hdef, h1]
  show (loopTicks st1 ts >>= fun r2 => Except.ok (r2.1, out1 ++ r2.2)) =
    Except.ok (st2, out1 ++ out2)
  rw [h2]
  rfl

theorem optimization_loop_callback_idle {P : Type} [One P] (st : Machine P) (now : Int)
    (hne : st.current_pose_estimates.isEmpty = false)
    (hi : st.optimizer_state = OptimizerState.IDLE) :
    optimization_loop_callback st now =
      Except.ok (st, [OutMsg.optimizerStateMsg OptimizerState.IDLE]) := by
  unfold optimization_loop_callback
  rw [hne, hi]
  show Except.ok (st, [OutMsg.optimizerStateMsg st.optimizer_state]) =
    Except.ok (st, [OutMsg.optimizerStateMsg OptimizerState.IDLE])
  rw [hi]

theorem loopTicks_waiting_spec {P : Type} [One P] :
    ∀ (ts : List Int) (st : Machine P),
      st.current_pose_estimates ≠ [] →
      (st.optimizer_state = OptimizerState.WAITING ∨
        (st.optimizer_state = OptimizerState.IDLE ∧ st.is_waiting = false)) →
      ∃ st' out, loopTicks st ts = Except.ok (st', out) ∧
        st'.start_waiting_time = st.start_waiting_time ∧
        (∀ f e, OutMsg.optimizationResult f e ∉ out) ∧
        (st'.optimizer_state = OptimizerState.WAITING ∨
          (st'.optimizer_state = OptimizerState.IDLE ∧ st'.is_waiting = false)) ∧
        (((∃ t ∈ ts, st.max_waiting_time_sec < t - st.start_waiting_time) ∨
            (st.optimizer_state = OptimizerState.IDLE ∧ st.is_waiting = false)) →
          st'.optimizer_state = OptimizerState.IDLE ∧ st'.is_waiting = false) := by
  intro ts
  induction ts with
  | nil =>
      intro st hne hinv
      refine ⟨st, [], rfl, rfl, ?_, hinv, ?_⟩
      · intro f e h; exact absurd h (List.not_mem_nil _)
      · intro hc
        rcases hc with ⟨t, ht, _⟩ | hc
        · exact absurd ht (List.not_mem_nil _)
        · exact hc
  | cons t ts ih =>
      intro st hne hinv
      have hne2 : st.current_pose_estimates.isEmpty = false := by
        cases h : st.current_pose_estimates with
        | nil => exact absurd h hne
        | cons a l => rfl
      rcases hinv with hw | hi
      · -- WAITING tick
        have hcb := optimization_loop_callback_waiting st t hne2 hw
        have hpres := check_waiting_timeout_preserves st t
        have hne1 : (check_waiting_timeout st t).current_pose_estimates ≠ [] := by
          rw [hpres.1]; exact hne
        have hinv1 : (check_waiting_timeout st t).optimizer_state = OptimizerState.WAITING ∨
            ((check_waiting_timeout st t).optimizer_state = OptimizerState.IDLE ∧
              (check_waiting_timeout st t).is_waiting = false) := by
          unfold check_waiting_timeout
          split
          · exact Or.inr ⟨rfl, rfl⟩
          · exact Or.inl hw
        obtain ⟨st2, out2, heq2, hstart2, hout2, hinv2, hfin2⟩ :=
          ih (check_waiting_timeout st t) hne1 hinv1
        refine ⟨st2,
          [OutMsg.optimizerStateMsg (check_waiting_timeout st t).optimizer_state] ++ out2,
          ?_, ?_, ?_, hinv2, ?_⟩
        · exact loopTicks_cons_eq st (check_waiting_timeout st t) st2 t ts _ out2 hcb heq2
        · rw [hstart2, hpres.2.1]
        · intro f e hmem
          rcases List.mem_append.mp hmem with h1 | h2
          · rcases List.mem_singleton.mp h1 with h1
            cases h1
          · exact hout2 f e h2
        · intro hc
          rcases hc with ⟨t0, ht0, hcond⟩ | hid
          · rcases List.mem_cons.mp ht0 with ht0 | ht0
            · subst ht0
              apply hfin2
              right
              unfold check_waiting_timeout
              rw [if_pos hcond]
              exact ⟨rfl, rfl⟩
            · apply hfin2
              left
              exact ⟨t0, ht0, by rw [hpres.2.2, hpres.2.1]; exact hcond⟩
          · rw [hw] at hid
            cases hid.1
      · -- IDLE tick
        have hcb := optimization_loop_callback_idle st t hne2 hi.1
        obtain ⟨st2, out2, heq2, hstart2, hout2, hinv2, hfin2⟩ :=
          ih st hne (Or.inr hi)
        refine ⟨st2, [OutMsg.optimizerStateMsg OptimizerState.IDLE] ++ out2,
          ?_, hstart2, ?_, hinv2, ?_⟩
        · exact loopTicks_cons_eq st st st2 t ts _ out2 hcb heq2
        · intro f e hmem
          rcases List.mem_append.mp hmem with h1 | h2
          · rcases List.mem_singleton.mp h1 with h1
            cases h1
          · exact hout2 f e h2
        · intro _
          exact hfin2 (Or.inr hi)

/-- Claim C7 (amended): a round in `WAITING` with non-empty local
estimates that receives only loop ticks (no completion event) reaches
`IDLE` with the wait ended as soon as some tick observes an elapsed time
exceeding the maximum, and no optimization result message is published
along the way. -/
theorem waiting_timeout_reaches_idle {P : Type} [One P] (st : Machine P) (ts : List Int)
    (hw : st.optimizer_state = OptimizerState.WAITING)
    (hne : st.current_pose_estimates ≠ [])
    (hex : ∃ t ∈ ts, st.max_waiting_time_sec < t - st.start_waiting_time) :
    ∃ st' out, loopTicks st ts = Except.ok (st', out) ∧
      st'.optimizer_state = OptimizerState.IDLE ∧ st'.is_waiting = false ∧
      ∀ f e, OutMsg.optimizationResult f e ∉ out := by
  obtain ⟨st', out, heq, _, hout, _, hfin⟩ := loopTicks_waiting_spec ts st hne (Or.inl hw)
  have hid := hfin (Or.inl hex)
  exact ⟨st', out, heq, hid.1, hid.2, hout⟩

/-- Witness for claim C7 at a concrete waiting machine and a tick past
the deadline. -/
theorem waiting_timeout_reaches_idle_witness :
    exMachine7.optimizer_state = OptimizerState.WAITING ∧
    exMachine7.current_pose_estimates ≠ [] ∧
    (∃ st' out, loopTicks exMachine7 [5] = Except.ok (st', out) ∧
      st'.optimizer_state = OptimizerState.IDLE ∧ st'.is_waiting = false ∧
      ∀ f e, OutMsg.optimizationResult f e ∉ out) :=
  ⟨rfl, by decide,
    waiting_timeout_reaches_idle exMachine7 [5] rfl (by decide)
      ⟨5, by decide, by decide⟩⟩

/-- Counterexample to claim C7 as stated: with empty local estimates the
loop tick skips the timeout check entirely, so well after the deadline
the machine is still in `WAITING`, not `IDLE`. -/
theorem waiting_timeout_empty_estimates_cex :
    exMachine7c.optimizer_state = OptimizerState.WAITING ∧
    exMachine7c.current_pose_estimates = [] ∧
    exMachine7c.max_waiting_time_sec < 5 - exMachine7c.start_waiting_time ∧
    (loopTicks exMachine7c [5]).toOption.map (fun r => r.1.optimizer_state) =
      some OptimizerState.WAITING := by
  refine ⟨rfl, rfl, by decide, rfl⟩

/-! ### Claim C6: shape of the local graph after a FIFO odometry stream -/

theorem localSymbol_index_inj (rid i j : Nat) (h : localSymbol rid i = localSymbol rid j) :
    i = j := by
  simp [localSymbol, LabeledSymbol.mk.injEq] at h
  exact h

theorem chainFactors_nil {P : Type} [Mul P] [Inv P] (rid : Nat)
    (o : Option (LabeledSymbol × P)) : chainFactors rid o [] = [] := by
  cases o <;> rfl

theorem chainFactors_none_cons {P : Type} [Mul P] [Inv P] (rid : Nat) (e : Nat × P)
    (es : List (Nat × P)) :
    chainFactors rid none (e :: es) = chainFactors rid (some (localSymbol rid e.1, e.2)) es :=
  rfl

theorem chainFactors_some_cons {P : Type} [Mul P] [Inv P] (rid : Nat)
    (lp : LabeledSymbol × P) (e : Nat × P) (es : List (Nat × P)) :
    chainFactors rid (some lp) (e :: es) =
      ⟨lp.1, localSymbol rid e.1, e.2 * lp.2⁻¹, defaultNoiseModel⟩ ::
        chainFactors rid (some (localSymbol rid e.1, e.2)) es :=
  rfl

theorem chainFactors_some_length {P : Type} [Mul P] [Inv P] (rid : Nat) :
    ∀ (es : List (Nat × P)) (lp : LabeledSymbol × P),
      (chainFactors rid (some lp) es).length = es.length := by
  intro es
  induction es with
  | nil => intro lp; rfl
  | cons e es ih =>
      intro lp
      rw [chainFactors_some_cons]
      simp [ih]

theorem chainFactors_none_length {P : Type} [Mul P] [Inv P] (rid : Nat)
    (es : List (Nat × P)) : (chainFactors rid none es).length = es.length - 1 := by
  cases es with
  | nil => rfl
  | cons e es => rw [chainFactors_none_cons, chainFactors_some_length]; rfl

theorem chainFactors_some_get {P : Type} [Mul P] [Inv P] (rid : Nat) :
    ∀ (es : List (Nat × P)) (lp : LabeledSymbol × P) (k : Nat) (a b : Nat × P),
      es[k]? = some a → es[k + 1]? = some b →
      (chainFactors rid (some lp) es)[k + 1]? =
        some ⟨localSymbol rid a.1, localSymbol rid b.1, b.2 * a.2⁻¹, defaultNoiseModel⟩ := by
  intro es
  induction es with
  | nil => intro lp k a b ha _; simp at ha
  | cons e es ih =>
      intro lp k a b ha hb
      cases k with
      | zero =>
          rw [List.getElem?_cons_zero] at ha
          injection ha with ha
          subst ha
          rw [List.getElem?_cons_succ] at hb
          cases es with
          | nil => simp at hb
          | cons b0 es2 =>
              rw [List.getElem?_cons_zero] at hb
              injection hb with hb
              subst hb
              rw [chainFactors_some_cons, List.getElem?_cons_succ,
                chainFactors_some_cons, List.getElem?_cons_zero]
      | succ k =>
          rw [List.getElem?_cons_succ] at ha hb
          rw [chainFactors_some_cons, List.getElem?_cons_succ]
          exact ih (localSymbol rid e.1, e.2) k a b ha hb

theorem chainFactors_none_get {P : Type} [Mul P] [Inv P] (rid : Nat) :
    ∀ (es : List (Nat × P)) (k : Nat) (a b : Nat × P),
      es[k]? = some a → es[k + 1]? = some b →
      (chainFactors rid none es)[k]? =
        some ⟨localSymbol rid a.1, localSymbol rid b.1, b.2 * a.2⁻¹, defaultNoiseModel⟩ := by
  intro es k a b ha hb
  cases es with
  | nil => simp at ha
  | cons e es =>
      rw [chainFactors_none_cons]
      cases k with
      | zero =>
          rw [List.getElem?_cons_zero] at ha
          injection ha with ha
          subst ha
          rw [List.getElem?_cons_succ] at hb
          cases es with
          | nil => simp at hb
          | cons b0 es2 =>
              rw [List.getElem?_cons_zero] at hb
              injection hb with hb
              subst hb
              rw [chainFactors_some_cons, List.getElem?_cons_zero]
      | succ k =>
          rw [List.getElem?_cons_succ] at ha hb
          exact chainFactors_some_get rid es (localSymbol rid e.1, e.2) k a b ha hb

theorem ingestAll_spec {P : Type} [Mul P] [Inv P] :
    ∀ (events : List (Nat × P)) (st : Machine P),
      (∀ e ∈ events,
        valuesContains st.current_pose_estimates (localSymbol st.robot_id e.1) = false) →
      (events.map Prod.fst).Nodup →
      ∃ st', ingestAll st events = Except.ok st' ∧
        st'.robot_id = st.robot_id ∧
        st'.current_pose_estimates =
          st.current_pose_estimates ++
            events.map (fun e => (localSymbol st.robot_id e.1, e.2)) ∧
        st'.pose_graph = st.pose_graph ++ chainFactors st.robot_id st.latest_local events := by
  intro events
  induction events with
  | nil =>
      intro st _ _
      exact ⟨st, rfl, rfl, by simp, by rw [chainFactors_nil]; simp⟩
  | cons e es ih =>
      intro st hfresh hnd
      have hc : valuesContains st.current_pose_estimates (localSymbol st.robot_id e.1) = false :=
        hfresh e (List.mem_cons_self _ _)
      have hcb : odometry_callback st e = Except.ok
          { st with
            current_pose_estimates :=
              st.current_pose_estimates ++ [(localSymbol st.robot_id e.1, e.2)]
            pose_graph :=
              match st.latest_local with
              | none => st.pose_graph
              | some lp => st.pose_graph ++
                  [⟨lp.1, localSymbol st.robot_id e.1, e.2 * lp.2⁻¹, defaultNoiseModel⟩]
            latest_local := some (localSymbol st.robot_id e.1, e.2) } := by
        unfold odometry_callback valuesInsert
        rw [hc]
        rfl
      set st1 : Machine P :=
        { st with
          current_pose_estimates :=
            st.current_pose_estimates ++ [(localSymbol st.robot_id e.1, e.2)]
          pose_graph :=
            match st.latest_local with
            | none => st.pose_graph
            | some lp => st.pose_graph ++
                [⟨lp.1, localSymbol st.robot_id e.1, e.2 * lp.2⁻¹, defaultNoiseModel⟩]
          latest_local := some (localSymbol st.robot_id e.1, e.2) } with hst1
      have hnd0 : e.1 ∉ es.map Prod.fst ∧ (es.map Prod.fst).Nodup := by
        rw [List.map_cons] at hnd
        exact List.nodup_cons.mp hnd
      have hfresh1 : ∀ e' ∈ es,
          valuesContains st1.current_pose_estimates (localSymbol st1.robot_id e'.1) = false := by
        intro e' he'
        have hr : st1.robot_id = st.robot_id := rfl
        have he1 : st1.current_pose_estimates =
            st.current_pose_estimates ++ [(localSymbol st.robot_id e.1, e.2)] := rfl
        rw [hr, he1, valuesContains_append]
        have h1 : valuesContains st.current_pose_estimates (localSymbol st.robot_id e'.1) = false :=
          hfresh e' (List.mem_cons_of_mem _ he')
        have h2 : valuesContains [(localSymbol st.robot_id e.1, e.2)]
            (localSymbol st.robot_id e'.1) = false := by
          unfold valuesContains
          simp only [List.any_cons, List.any_nil, Bool.or_false]
          rw [decide_eq_false_iff_not]
          intro hEq
          have : e.1 = e'.1 := localSymbol_index_inj st.robot_id e.1 e'.1 hEq
          exact hnd0.1 (this ▸ List.mem_map_of_mem Prod.fst he')
        rw [h1, h2]
        rfl
      obtain ⟨st', heq, hrid, hest, hgraph⟩ := ih st1 hfresh1 hnd0.2
      have hfold : ingestAll st (e :: es) = Except.ok st' := by
        unfold ingestAll
        rw [List.foldlM_cons, hcb, exceptBind_ok]
        exact heq
      refine ⟨st', hfold, hrid, ?_, ?_⟩
      · rw [hest]
        have he1 : st1.current_pose_estimates =
            st.current_pose_estimates ++ [(localSymbol st.robot_id e.1, e.2)] := rfl
        have hr : st1.robot_id = st.robot_id := rfl
        rw [he1, hr, List.map_cons, List.append_assoc]
        rfl
      · rw [hgraph]
        have hr : st1.robot_id = st.robot_id := rfl
        have hl : st1.latest_local = some (localSymbol st.robot_id e.1, e.2) := rfl
        rw [hr, hl]
        cases hll : st.latest_local with
        | none =>
            have hg1 : st1.pose_graph = st.pose_graph := by
              rw [hst1, hll]
            rw [hg1, chainFactors_none_cons]
        | some lp =>
            have hg1 : st1.pose_graph = st.pose_graph ++
                [⟨lp.1, localSymbol st.robot_id e.1, e.2 * lp.2⁻¹, defaultNoiseModel⟩] := by
              rw [hst1, hll]
            rw [hg1, chainFactors_some_cons, List.append_assoc]
            rfl

/-- Claim C6: ingesting a non-empty FIFO stream of keyframes with
strictly increasing ids into a fresh machine succeeds; afterwards the
local graph has one factor less than the estimates have entries, and the
k-th factor connects the symbols of keyframes k and k+1 (zero-based)
measuring `pose_next * pose_prev⁻¹`. -/
theorem odometry_ingest_shape {P : Type} [Mul P] [Inv P] (rid nb : Nat) (maxWait : Int)
    (events : List (Nat × P)) (_hne : events ≠ [])
    (hinc : List.Chain' (· < ·) (events.map Prod.fst)) :
    ∃ st', ingestAll (initMachine P rid nb maxWait) events = Except.ok st' ∧
      st'.pose_graph.length = st'.current_pose_estimates.length - 1 ∧
      st'.current_pose_estimates.length = events.length ∧
      ∀ (k : Nat) (a b : Nat × P), events[k]? = some a → events[k + 1]? = some b →
        st'.pose_graph[k]? =
          some ⟨localSymbol rid a.1, localSymbol rid b.1, b.2 * a.2⁻¹, defaultNoiseModel⟩ := by
  have hnd : (events.map Prod.fst).Nodup := by
    have hp := List.chain'_iff_pairwise.mp hinc
    exact hp.imp Nat.ne_of_lt
  obtain ⟨st', heq, hrid, hest, hgraph⟩ :=
    ingestAll_spec events (initMachine P rid nb maxWait) (fun e _ => rfl) hnd
  refine ⟨st', heq, ?_, ?_, ?_⟩
  · rw [hest, hgraph]
    show (chainFactors rid none events).length =
      (events.map (fun e => (localSymbol rid e.1, e.2))).length - 1
    rw [chainFactors_none_length, List.length_map]
  · rw [hest]
    show (events.map (fun e => (localSymbol rid e.1, e.2))).length = events.length
    rw [List.length_map]
  · intro k a b ha hb
    rw [hgraph]
    show (chainFactors rid none events)[k]? = _
    exact chainFactors_none_get rid events k a b ha hb

/-- Witness for claim C6 on a concrete two-keyframe stream. -/
theorem odometry_ingest_shape_witness :
    ([((0 : Nat), PUnit.unit), (1, PUnit.unit)] ≠ ([] : List (Nat × PUnit))) ∧
    List.Chain' (· < ·) (([((0 : Nat), PUnit.unit), (1, PUnit.unit)]).map Prod.fst) ∧
    (∃ st', ingestAll (initMachine PUnit 0 3 60) [(0, PUnit.unit), (1, PUnit.unit)] =
        Except.ok st' ∧
      st'.pose_graph.length = st'.current_pose_estimates.length - 1 ∧
      st'.current_pose_estimates.length = 2 ∧
      ∀ (k : Nat) (a b : Nat × PUnit),
        ([((0 : Nat), PUnit.unit), (1, PUnit.unit)])[k]? = some a →
        ([((0 : Nat), PUnit.unit), (1, PUnit.unit)])[k + 1]? = some b →
        st'.pose_graph[k]? =
          some ⟨localSymbol 0 a.1, localSymbol 0 b.1, b.2 * a.2⁻¹, defaultNoiseModel⟩) :=
  ⟨by decide, by simp [List.chain'_cons],
    odometry_ingest_shape 0 3 60 [(0, PUnit.unit), (1, PUnit.unit)] (by decide)
      (by simp [List.chain'_cons])⟩

/-! ### Claims C5 and C9: the served sub-graph -/

theorem setInsert_mem (l : List Nat) (x y : Nat) : y ∈ setInsert l x ↔ y ∈ l ∨ y = x := by
  unfold setInsert
  by_cases h : x ∈ l
  · rw [if_pos h]
    constructor
    · exact Or.inl
    · rintro (h1 | rfl)
      · exact h1
      · exact h
  · rw [if_neg h]
    simp [List.mem_append]

theorem positionPairs_mem :
    ∀ (l : List Nat) (a b : Nat), (a, b) ∈ positionPairs l → a ∈ l ∧ b ∈ l := by
  intro l
  induction l with
  | nil => intro a b h; simp [positionPairs] at h
  | cons x xs ih =>
      intro a b h
      unfold positionPairs at h
      rcases List.mem_append.mp h with h1 | h2
      · obtain ⟨y, hy, heq⟩ := List.mem_map.mp h1
        cases heq
        exact ⟨List.mem_cons_self _ _, List.mem_cons_of_mem _ hy⟩
      · have := ih a b h2
        exact ⟨List.mem_cons_of_mem _ this.1, List.mem_cons_of_mem _ this.2⟩

theorem positionPairs_complete :
    ∀ (l : List Nat) (a b : Nat), a ∈ l → b ∈ l → a ≠ b →
      (a, b) ∈ positionPairs l ∨ (b, a) ∈ positionPairs l := by
  intro l
  induction l with
  | nil => intro a b ha _ _; exact absurd ha (List.not_mem_nil a)
  | cons x xs ih =>
      intro a b ha hb hne
      unfold positionPairs
      rcases List.mem_cons.mp ha with rfl | ha2
      · rcases List.mem_cons.mp hb with rfl | hb2
        · exact absurd rfl hne
        · exact Or.inl (List.mem_append.mpr (Or.inl (List.mem_map.mpr ⟨b, hb2, rfl⟩)))
      · rcases List.mem_cons.mp hb with rfl | hb2
        · exact Or.inr (List.mem_append.mpr (Or.inl (List.mem_map.mpr ⟨a, ha2, rfl⟩)))
        · rcases ih a b ha2 hb2 hne with h1 | h1
          · exact Or.inl (List.mem_append.mpr (Or.inr h1))
          · exact Or.inr (List.mem_append.mpr (Or.inr h1))

theorem positionPairs_nodup_ne :
    ∀ (l : List Nat), l.Nodup → ∀ a b : Nat, (a, b) ∈ positionPairs l → a ≠ b := by
  intro l
  induction l with
  | nil => intro _ a b h; simp [positionPairs] at h
  | cons x xs ih =>
      intro hnd a b h
      have hx : x ∉ xs ∧ xs.Nodup := List.nodup_cons.mp hnd
      unfold positionPairs at h
      rcases List.mem_append.mp h with h1 | h2
      · obtain ⟨y, hy, heq⟩ := List.mem_map.mp h1
        cases heq
        intro hEq
        exact hx.1 (hEq ▸ hy)
      · exact ih hx.2 a b h2

theorem serve_fold_graph_mem {P : Type} (st : Machine P) :
    ∀ (pairs : List (Nat × Nat)) (acc : List (BetweenFactor P) × List Nat) (f : BetweenFactor P),
      f ∈ (pairs.foldl (servePairStep st) acc).1 ↔
        f ∈ acc.1 ∨ ∃ pr, pr ∈ pairs ∧ Nat.min pr.1 pr.2 = st.robot_id ∧
          f ∈ st.inter_robot_loop_closures (Nat.min pr.1 pr.2, Nat.max pr.1 pr.2) := by
  intro pairs
  induction pairs with
  | nil => intro acc f; simp
  | cons pr pairs ih =>
      intro acc f
      rw [List.foldl_cons, ih]
      unfold servePairStep
      by_cases hlen :
          0 < (st.inter_robot_loop_closures (Nat.min pr.1 pr.2, Nat.max pr.1 pr.2)).length
      · rw [if_pos hlen]
        by_cases hmin : Nat.min pr.1 pr.2 = st.robot_id
        · rw [if_pos hmin]
          simp only [List.mem_cons, exists_eq_or_imp, hmin, true_and, List.mem_append]
          tauto
        · rw [if_neg hmin]
          simp only [List.mem_cons, exists_eq_or_imp, hmin, false_and, false_or]
      · rw [if_neg hlen]
        have hnil : st.inter_robot_loop_closures (Nat.min pr.1 pr.2, Nat.max pr.1 pr.2) = [] :=
          List.length_eq_zero.mp (Nat.eq_zero_of_not_pos hlen)
        simp only [List.mem_cons, exists_eq_or_imp, hnil, List.not_mem_nil, and_false, false_or]

theorem serve_fold_conn_mem {P : Type} (st : Machine P) :
    ∀ (pairs : List (Nat × Nat)) (acc : List (BetweenFactor P) × List Nat) (x : Nat),
      x ∈ (pairs.foldl (servePairStep st) acc).2 ↔
        x ∈ acc.2 ∨ ∃ pr, pr ∈ pairs ∧
          0 < (st.inter_robot_loop_closures (Nat.min pr.1 pr.2, Nat.max pr.1 pr.2)).length ∧
          x = Nat.max pr.1 pr.2 := by
  intro pairs
  induction pairs with
  | nil => intro acc x; simp
  | cons pr pairs ih =>
      intro acc x
      rw [List.foldl_cons, ih]
      unfold servePairStep
      by_cases hlen :
          0 < (st.inter_robot_loop_closures (Nat.min pr.1 pr.2, Nat.max pr.1 pr.2)).length
      · rw [if_pos hlen]
        by_cases hmin : Nat.min pr.1 pr.2 = st.robot_id
        · rw [if_pos hmin]
          simp only [List.mem_cons, exists_eq_or_imp, hlen, true_and, setInsert_mem]
          tauto
        · rw [if_neg hmin]
          simp only [List.mem_cons, exists_eq_or_imp, hlen, true_and, setInsert_mem]
          tauto
      · rw [if_neg hlen]
        simp only [List.mem_cons, exists_eq_or_imp, hlen, false_and, false_or]

theorem min_max_cases (a b : Nat) :
    (Nat.min a b = a ∧ Nat.max a b = b) ∨ (Nat.min a b = b ∧ Nat.max a b = a) := by
  rcases Nat.le_total a b with h | h
  · exact Or.inl ⟨Nat.min_eq_left h, Nat.max_eq_right h⟩
  · exact Or.inr ⟨Nat.min_eq_right h, Nat.max_eq_left h⟩

/-- Claim C5: for a request carrying a duplicate-free id set, the served
edges are exactly the local odometry factors plus the stored loop
closures of pairs inside the set whose smaller id is this robot. -/
theorem get_pose_graph_edges_spec {P : Type} (st : Machine P) (ids : List Nat)
    (hnd : ids.Nodup) (f : BetweenFactor P) :
    RawFactor.between f ∈ (get_pose_graph_callback st ids).edges ↔
      f ∈ st.pose_graph ∨ ∃ a b : Nat, a ∈ ids ∧ b ∈ ids ∧ a < b ∧ a = st.robot_id ∧
        f ∈ st.inter_robot_loop_closures (a, b) := by
  have hmap : RawFactor.between f ∈ (get_pose_graph_callback st ids).edges ↔
      f ∈ ((positionPairs ids).foldl (servePairStep st) (st.pose_graph, [])).1 := by
    unfold get_pose_graph_callback
    constructor
    · intro h
      obtain ⟨g, hg, heq⟩ := List.mem_map.mp h
      injection heq with heq
      exact heq ▸ hg
    · intro h
      exact List.mem_map.mpr ⟨f, h, rfl⟩
  rw [hmap, serve_fold_graph_mem]
  constructor
  · rintro (h | ⟨pr, hpr, hmin, hf⟩)
    · exact Or.inl h
    · right
      have hm := positionPairs_mem ids pr.1 pr.2 hpr
      have hne := positionPairs_nodup_ne ids hnd pr.1 pr.2 hpr
      refine ⟨Nat.min pr.1 pr.2, Nat.max pr.1 pr.2, ?_, ?_, ?_, hmin, hf⟩
      · rcases min_max_cases pr.1 pr.2 with ⟨h1, _⟩ | ⟨h1, _⟩
        · exact h1.symm ▸ hm.1
        · exact h1.symm ▸ hm.2
      · rcases min_max_cases pr.1 pr.2 with ⟨_, h2⟩ | ⟨_, h2⟩
        · exact h2.symm ▸ hm.2
        · exact h2.symm ▸ hm.1
      · exact min_lt_max.mpr hne
  · rintro (h | ⟨a, b, ha, hb, hab, hrid, hf⟩)
    · exact Or.inl h
    · right
      have hminab : Nat.min a b = a := Nat.min_eq_left (Nat.le_of_lt hab)
      have hmaxab : Nat.max a b = b := Nat.max_eq_right (Nat.le_of_lt hab)
      have hminba : Nat.min b a = a := Nat.min_eq_right (Nat.le_of_lt hab)
      have hmaxba : Nat.max b a = b := Nat.max_eq_left (Nat.le_of_lt hab)
      rcases positionPairs_complete ids a b ha hb (Nat.ne_of_lt hab) with hp | hp
      · exact ⟨(a, b), hp, by rw [hminab]; exact hrid, by rw [hminab, hmaxab]; exact hf⟩
      · refine ⟨(b, a), hp, ?_, ?_⟩
        · show Nat.min b a = st.robot_id
          rw [hminba]; exact hrid
        · show f ∈ st.inter_robot_loop_closures (Nat.min b a, Nat.max b a)
          rw [hminba, hmaxba]; exact hf

/-- Claim C9 (amended): every robot id in the served `connected_robots`
set is the larger member of some pair of requested ids whose store entry
is non-empty (whether or not this robot belongs to the pair). -/
theorem connected_robots_spec {P : Type} (st : Machine P) (ids : List Nat)
    (hnd : ids.Nodup) (x : Nat) (hx : x ∈ (get_pose_graph_callback st ids).connected_robots) :
    ∃ a b : Nat, a ∈ ids ∧ b ∈ ids ∧ a < b ∧ b = x ∧
      0 < (st.inter_robot_loop_closures (a, b)).length := by
  have hx2 : x ∈ ((positionPairs ids).foldl (servePairStep st) (st.pose_graph, [])).2 := hx
  rw [serve_fold_conn_mem] at hx2
  rcases hx2 with h | ⟨pr, hpr, hlen, hmax⟩
  · exact absurd h (List.not_mem_nil x)
  · have hm := positionPairs_mem ids pr.1 pr.2 hpr
    have hne := positionPairs_nodup_ne ids hnd pr.1 pr.2 hpr
    refine ⟨Nat.min pr.1 pr.2, Nat.max pr.1 pr.2, ?_, ?_, ?_, hmax.symm, hlen⟩
    · rcases min_max_cases pr.1 pr.2 with ⟨h1, _⟩ | ⟨h1, _⟩
      · exact h1.symm ▸ hm.1
      · exact h1.symm ▸ hm.2
    · rcases min_max_cases pr.1 pr.2 with ⟨_, h2⟩ | ⟨_, h2⟩
      · exact h2.symm ▸ hm.2
      · exact h2.symm ▸ hm.1
    · exact min_lt_max.mpr hne

/-- A loop-closure factor between robots 0 and 1. -/
def exFactor01 : BetweenFactor PUnit :=
  ⟨localSymbol 0 5, localSymbol 1 7, PUnit.unit, defaultNoiseModel⟩

/-- Robot 0 with one odometry edge and one stored loop closure with
robot 1. -/
def exMachine5 : Machine PUnit :=
  { initMachine PUnit 0 3 60 with
    pose_graph := [⟨localSymbol 0 0, localSymbol 0 1, PUnit.unit, defaultNoiseModel⟩]
    inter_robot_loop_closures := fun p => if p = (0, 1) then [exFactor01] else [] }

/-- Witness for claim C5 on a concrete request. -/
theorem get_pose_graph_edges_spec_witness :
    ([0, 1] : List Nat).Nodup ∧
    (RawFactor.between exFactor01 ∈ (get_pose_graph_callback exMachine5 [0, 1]).edges ↔
      exFactor01 ∈ exMachine5.pose_graph ∨
        ∃ a b : Nat, a ∈ ([0, 1] : List Nat) ∧ b ∈ ([0, 1] : List Nat) ∧ a < b ∧
          a = exMachine5.robot_id ∧ exFactor01 ∈ exMachine5.inter_robot_loop_closures (a, b)) :=
  ⟨by decide, get_pose_graph_edges_spec exMachine5 [0, 1] (by decide) exFactor01⟩

/-- Robot 0 whose store holds a loop closure for the pair of robots 1
and 2 (a pair not containing robot 0). -/
def exMachine9 : Machine PUnit :=
  { initMachine PUnit 0 3 60 with
    inter_robot_loop_closures := fun p =>
      if p = (1, 2) then [⟨localSymbol 1 0, localSymbol 2 0, PUnit.unit, defaultNoiseModel⟩]
      else [] }

/-- Counterexample to claim C9 as stated: on a request for ids 1 and 2,
robot 0 publishes 2 in `connected_robots` although robot 0 belongs to no
requested pair at all (its id is not in the request) and its store entry
for the pair of robots 0 and 2 is empty: `connected_robots` does not
declare incidence of self. -/
theorem connected_robots_cex :
    2 ∈ (get_pose_graph_callback exMachine9 [1, 2]).connected_robots ∧
    exMachine9.robot_id = 0 ∧
    (0 : Nat) ∉ ([1, 2] : List Nat) ∧
    exMachine9.inter_robot_loop_closures (0, 2) = [] := by
  refine ⟨by decide, rfl, by decide, rfl⟩

/-- Witness for claim C9 (amended) at the same concrete state. -/
theorem connected_robots_spec_witness :
    ([1, 2] : List Nat).Nodup ∧
    2 ∈ (get_pose_graph_callback exMachine9 [1, 2]).connected_robots ∧
    (∃ a b : Nat, a ∈ ([1, 2] : List Nat) ∧ b ∈ ([1, 2] : List Nat) ∧ a < b ∧ b = 2 ∧
      0 < (exMachine9.inter_robot_loop_closures (a, b)).length) :=
  ⟨by decide, by decide, connected_robots_spec exMachine9 [1, 2] (by decide) 2 (by decide)⟩

/-! ### Claims C1 and C2: the connectivity BFS -/

theorem bfsVisitOne_conn_map (s : BfsState) (id : Nat) :
    (bfsVisitOne s id).conn_map = assocAssign s.conn_map id true := by
  unfold bfsVisitOne
  split <;> rfl

theorem bfsVisitOne_touched (s : BfsState) (id : Nat) :
    (bfsVisitOne s id).touched = s.touched ++ [id] := by
  unfold bfsVisitOne
  split <;> rfl

theorem bfsFold_touched :
    ∀ (ids : List Nat) (s : BfsState),
      (ids.foldl bfsVisitOne s).touched = s.touched ++ ids := by
  intro ids
  induction ids with
  | nil => intro s; simp
  | cons id ids ih =>
      intro s
      rw [List.foldl_cons, ih, bfsVisitOne_touched, List.append_assoc]
      rfl

theorem bfsFold_map_true :
    ∀ (ids : List Nat) (s : BfsState) (x : Nat),
      assocLookupD ((ids.foldl bfsVisitOne s).conn_map) x false = true ↔
        x ∈ ids ∨ assocLookupD s.conn_map x false = true := by
  intro ids
  induction ids with
  | nil => intro s x; simp
  | cons id ids ih =>
      intro s x
      rw [List.foldl_cons, ih, bfsVisitOne_conn_map, assocLookupD_assign]
      by_cases hx : id = x
      · subst hx
        simp
      · rw [if_neg hx]
        have hmem : (x ∈ id :: ids) ↔ x ∈ ids := by
          rw [List.mem_cons]
          constructor
          · rintro (rfl | h)
            · exact absurd rfl hx
            · exact h
          · exact Or.inr
        rw [hmem]

theorem bfsLoop_succ_nil (conn : Nat → List Nat) (fuel : Nat) (s : BfsState)
    (h : s.queue = []) : bfsLoop conn (fuel + 1) s = s := by
  show (match s.queue with
    | [] => s
    | c :: rest => bfsLoop conn fuel ((conn c).foldl bfsVisitOne { s with queue := rest })) = s
  rw [h]

theorem bfsLoop_succ_cons (conn : Nat → List Nat) (fuel : Nat) (s : BfsState)
    (c : Nat) (rest : List Nat) (h : s.queue = c :: rest) :
    bfsLoop conn (fuel + 1) s =
      bfsLoop conn fuel ((conn c).foldl bfsVisitOne { s with queue := rest }) := by
  show (match s.queue with
    | [] => s
    | c :: rest => bfsLoop conn fuel ((conn c).foldl bfsVisitOne { s with queue := rest })) = _
  rw [h]

theorem bfsLoop_touched_append (conn : Nat → List Nat) :
    ∀ (fuel : Nat) (s : BfsState), ∃ t, (bfsLoop conn fuel s).touched = s.touched ++ t := by
  intro fuel
  induction fuel with
  | zero => intro s; exact ⟨[], by simp [bfsLoop]⟩
  | succ fuel ih =>
      intro s
      cases hq : s.queue with
      | nil => exact ⟨[], by rw [bfsLoop_succ_nil conn fuel s hq]; simp⟩
      | cons c rest =>
          obtain ⟨t, ht⟩ := ih ((conn c).foldl bfsVisitOne { s with queue := rest })
          refine ⟨conn c ++ t, ?_⟩
          rw [bfsLoop_succ_cons conn fuel s c rest hq, ht, bfsFold_touched]
          show s.touched ++ conn c ++ t = s.touched ++ (conn c ++ t)
          rw [List.append_assoc]

theorem bfsLoop_touched_shape (conn : Nat → List Nat) :
    ∀ (fuel : Nat) (s : BfsState) (x : Nat), x ∈ (bfsLoop conn fuel s).touched →
      x ∈ s.touched ∨ ∃ c, x ∈ conn c := by
  intro fuel
  induction fuel with
  | zero => intro s x h; exact Or.inl h
  | succ fuel ih =>
      intro s x h
      cases hq : s.queue with
      | nil =>
          rw [bfsLoop_succ_nil conn fuel s hq] at h
          exact Or.inl h
      | cons c rest =>
          rw [bfsLoop_succ_cons conn fuel s c rest hq] at h
          rcases ih _ x h with h1 | h1
          · rw [bfsFold_touched] at h1
            rcases List.mem_append.mp h1 with h2 | h2
            · exact Or.inl h2
            · exact Or.inr ⟨c, h2⟩
          · exact Or.inr h1

theorem bfsLoop_map_true_sound (conn : Nat → List Nat) :
    ∀ (fuel : Nat) (s : BfsState) (x : Nat),
      assocLookupD (bfsLoop conn fuel s).conn_map x false = true →
      assocLookupD s.conn_map x false = true ∨ ∃ c, x ∈ conn c := by
  intro fuel
  induction fuel with
  | zero => intro s x h; exact Or.inl h
  | succ fuel ih =>
      intro s x h
      cases hq : s.queue with
      | nil =>
          rw [bfsLoop_succ_nil conn fuel s hq] at h
          exact Or.inl h
      | cons c rest =>
          rw [bfsLoop_succ_cons conn fuel s c rest hq] at h
          rcases ih _ x h with h1 | h1
          · rcases (bfsFold_map_true (conn c) _ x).mp h1 with h2 | h2
            · exact Or.inr ⟨c, h2⟩
            · exact Or.inl h2
          · exact Or.inr h1

theorem bfsLoop_map_true_mono (conn : Nat → List Nat) :
    ∀ (fuel : Nat) (s : BfsState) (x : Nat),
      assocLookupD s.conn_map x false = true →
      assocLookupD (bfsLoop conn fuel s).conn_map x false = true := by
  intro fuel
  induction fuel with
  | zero => intro s x h; exact h
  | succ fuel ih =>
      intro s x h
      cases hq : s.queue with
      | nil => rw [bfsLoop_succ_nil conn fuel s hq]; exact h
      | cons c rest =>
          rw [bfsLoop_succ_cons conn fuel s c rest hq]
          exact ih _ x ((bfsFold_map_true (conn c) _ x).mpr (Or.inr h))

theorem lookupD_true_some {κ : Type} [DecidableEq κ] (m : List (κ × Bool)) (x : κ)
    (h : assocLookupD m x false = true) : assocLookup m x = some true := by
  unfold assocLookupD at h
  cases hl : assocLookup m x with
  | none => rw [hl] at h; cases h
  | some b => rw [hl] at h; cases b
              · cases h
              · rfl

theorem foldl_insertIfAbsent_pres {κ : Type} [DecidableEq κ] :
    ∀ (l : List κ) (m : List (κ × Bool)) (k : κ) (v : Bool),
      assocLookup m k = some v →
      assocLookup (l.foldl (fun m id => assocInsertIfAbsent m id false) m) k = some v := by
  intro l
  induction l with
  | nil => intro m k v h; exact h
  | cons x l ih =>
      intro m k v h
      rw [List.foldl_cons]
      exact ih _ k v (assocLookup_insertIfAbsent_pres m k x v false h)

theorem foldl_insertIfAbsent_inv {κ : Type} [DecidableEq κ] :
    ∀ (l : List κ) (m : List (κ × Bool)) (k : κ) (v : Bool),
      assocLookup (l.foldl (fun m id => assocInsertIfAbsent m id false) m) k = some v →
      assocLookup m k = some v ∨ v = false := by
  intro l
  induction l with
  | nil => intro m k v h; exact Or.inl h
  | cons x l ih =>
      intro m k v h
      rw [List.foldl_cons] at h
      rcases ih _ k v h with h1 | h1
      · exact assocLookup_insertIfAbsent_inv m k x v false h1
      · exact Or.inr h1

theorem bfsInitMap_self {P : Type} (st : Machine P) :
    assocLookupD (bfsInitMap st) st.robot_id false = true := by
  unfold bfsInitMap assocLookupD
  rw [foldl_insertIfAbsent_pres st.current_neighbors _ st.robot_id true
    (by simp [assocInsertIfAbsent, assocLookup])]
  rfl

theorem bfsInitMap_true_inv {P : Type} (st : Machine P) (x : Nat)
    (h : assocLookupD (bfsInitMap st) x false = true) : x = st.robot_id := by
  unfold bfsInitMap at h
  have hsome := lookupD_true_some _ x h
  rcases foldl_insertIfAbsent_inv st.current_neighbors _ x true hsome with h1 | h1
  · have hbase : assocInsertIfAbsent ([] : List (Nat × Bool)) st.robot_id true =
        [(st.robot_id, true)] := by simp [assocInsertIfAbsent, assocLookup]
    rw [hbase] at h1
    unfold assocLookup at h1
    by_cases hk : st.robot_id = x
    · exact hk.symm
    · rw [if_neg hk] at h1; cases h1
  · cases h1

theorem connOf_mem {P : Type} (st : Machine P) (c x : Nat) (h : x ∈ connOf st c) :
    ∃ l, (c, l) ∈ st.received_pose_graphs_connectivity ∧ x ∈ l := by
  unfold connOf assocLookupD at h
  cases hl : assocLookup st.received_pose_graphs_connectivity c with
  | none => rw [hl] at h; cases h
  | some l =>
      rw [hl] at h
      exact ⟨l, assocLookup_mem _ c l hl, h⟩

/-- Claim C2 (amended): the map returned by the connectivity resolver
maps self's id to true, and every id it maps to true is self's id, a
current neighbour, or an id appearing in some received connectivity
declaration.  (The original claim — that nothing outside `{self} ∪
current_neighbors` can be true — fails: declared ids reached by the
search are set to true through `operator[]` even when absent from the
neighbour list.) -/
theorem connectivity_map_spec {P : Type} (st : Machine P) :
    assocLookupD (connected_robot_pose_graph st) st.robot_id false = true ∧
    ∀ x, assocLookupD (connected_robot_pose_graph st) x false = true →
      x = st.robot_id ∨ x ∈ st.current_neighbors ∨
        ∃ c l, (c, l) ∈ st.received_pose_graphs_connectivity ∧ x ∈ l := by
  constructor
  · exact bfsLoop_map_true_mono (connOf st) (bfsFuel st) _ st.robot_id (bfsInitMap_self st)
  · intro x h
    rcases bfsLoop_map_true_sound (connOf st) (bfsFuel st) _ x h with h1 | ⟨c, hc⟩
    · exact Or.inl (bfsInitMap_true_inv st x h1)
    · obtain ⟨l, hl, hx⟩ := connOf_mem st c x hc
      exact Or.inr (Or.inr ⟨c, l, hl, hx⟩)

/-- Robot 0 with no current neighbours whose own connectivity
declaration (received back over the fleet-wide topic) names robot 5. -/
def exMachine2 : Machine PUnit :=
  { initMachine PUnit 0 3 60 with received_pose_graphs_connectivity := [(0, [5])] }

/-- Counterexample to claim C2 as stated: robot 5 is absent from
`{self} ∪ current_neighbors` yet the returned map sends it to true. -/
theorem connectivity_map_cex :
    assocLookupD (connected_robot_pose_graph exMachine2) 5 false = true ∧
    exMachine2.robot_id = 0 ∧ (5 : Nat) ≠ 0 ∧
    (5 : Nat) ∉ exMachine2.current_neighbors := by
  refine ⟨by decide, rfl, by decide, by decide⟩

/-- Witness for claim C2 (amended) at the same concrete state. -/
theorem connectivity_map_spec_witness :
    assocLookupD (connected_robot_pose_graph exMachine2) exMachine2.robot_id false = true ∧
    (assocLookupD (connected_robot_pose_graph exMachine2) 5 false = true →
      5 = exMachine2.robot_id ∨ 5 ∈ exMachine2.current_neighbors ∨
        ∃ c l, (c, l) ∈ exMachine2.received_pose_graphs_connectivity ∧ 5 ∈ l) :=
  ⟨(connectivity_map_spec exMachine2).1, (connectivity_map_spec exMachine2).2 5⟩

/-- The simulation invariant between the idealised search state and the
bounds-checked state whose `visited` array has its allocated length `n`:
same map, same queue, and the visited set is exactly the set of indices
holding `true` in the array (all of them in bounds). -/
def BfsInv (n : Nat) (s : BfsState) (cs : BfsCState) : Prop :=
  cs.conn_map = s.conn_map ∧ cs.queue = s.queue ∧ cs.visited.length = n ∧
  (∀ i : Nat, i ∈ s.visited ↔ (cs.visited[i]?).getD false = true) ∧
  (∀ i ∈ s.visited, i < n)

theorem bfsVisitOneChecked_eq_true (cs : BfsCState) (id : Nat)
    (h : arrayGet cs.visited id = Except.ok true) :
    bfsVisitOneChecked cs id =
      Except.ok { cs with conn_map := assocAssign cs.conn_map id true } := by
  unfold bfsVisitOneChecked
  rw [h]
  rfl

theorem bfsVisitOneChecked_eq_false (cs : BfsCState) (id : Nat) (v : List Bool)
    (h : arrayGet cs.visited id = Except.ok false)
    (h2 : arraySet cs.visited id true = Except.ok v) :
    bfsVisitOneChecked cs id =
      Except.ok { conn_map := assocAssign cs.conn_map id true
                  visited := v
                  queue := cs.queue ++ [id] } := by
  unfold bfsVisitOneChecked
  rw [h]
  show (arraySet cs.visited id true >>= fun v2 =>
    Except.ok { conn_map := assocAssign cs.conn_map id true
                visited := v2
                queue := cs.queue ++ [id] } : Except String BfsCState) = _
  rw [h2]
  rfl

theorem bfsVisitOneChecked_eq_err (cs : BfsCState) (id : Nat) (e : String)
    (h : arrayGet cs.visited id = Except.error e) :
    bfsVisitOneChecked cs id = Except.error e := by
  unfold bfsVisitOneChecked
  rw [h]
  rfl

theorem arrayGet_oob (a : List Bool) (i : Nat) (h : ¬ i < a.length) :
    arrayGet a i = Except.error "visited read out of bounds" := by
  unfold arrayGet
  rw [List.getElem?_eq_none (Nat.le_of_not_lt h)]

theorem bfsVisitOneChecked_sim (n : Nat) (s : BfsState) (cs : BfsCState) (id : Nat)
    (hinv : BfsInv n s cs) (hid : id < n) :
    ∃ cs', bfsVisitOneChecked cs id = Except.ok cs' ∧ BfsInv n (bfsVisitOne s id) cs' := by
  obtain ⟨hm, hq, hlen, hmem, hbound⟩ := hinv
  have hlt : id < cs.visited.length := by rw [hlen]; exact hid
  by_cases hv : id ∈ s.visited
  · have hb : (cs.visited[id]?).getD false = true := (hmem id).mp hv
    have hb2 : cs.visited[id] = true := by
      rw [List.getElem?_eq_getElem hlt] at hb
      exact hb
    have hget : arrayGet cs.visited id = Except.ok true := by
      unfold arrayGet
      rw [List.getElem?_eq_getElem hlt, hb2]
    refine ⟨{ cs with conn_map := assocAssign cs.conn_map id true },
      bfsVisitOneChecked_eq_true cs id hget, ?_⟩
    unfold bfsVisitOne
    rw [if_pos hv]
    exact ⟨by rw [hm], hq, hlen, hmem, hbound⟩
  · have hb2 : cs.visited[id] = false := by
      cases hbb : cs.visited[id] with
      | false => rfl
      | true =>
          exact absurd ((hmem id).mpr
            (by rw [List.getElem?_eq_getElem hlt, hbb]; rfl)) hv
    have hget : arrayGet cs.visited id = Except.ok false := by
      unfold arrayGet
      rw [List.getElem?_eq_getElem hlt, hb2]
    have hset : arraySet cs.visited id true = Except.ok (cs.visited.set id true) := by
      unfold arraySet
      rw [if_pos hlt]
    refine ⟨{ conn_map := assocAssign cs.conn_map id true
              visited := cs.visited.set id true
              queue := cs.queue ++ [id] },
      bfsVisitOneChecked_eq_false cs id _ hget hset, ?_⟩
    unfold bfsVisitOne
    rw [if_neg hv]
    refine ⟨by rw [hm], by rw [hq], by rw [List.length_set]; exact hlen, ?_, ?_⟩
    · intro i
      by_cases hi : i = id
      · subst hi
        rw [List.getElem?_set_eq_of_lt true hlt]
        simp [List.mem_append]
      · rw [List.getElem?_set_ne (fun hEq => hi hEq.symm)]
        rw [List.mem_append]
        constructor
        · rintro (h1 | h1)
          · exact (hmem i).mp h1
          · exact absurd (List.mem_singleton.mp h1) hi
        · intro h1
          exact Or.inl ((hmem i).mpr h1)
    · intro i hi
      rcases List.mem_append.mp hi with h1 | h1
      · exact hbound i h1
      · rw [List.mem_singleton.mp h1]; exact hid

theorem bfsFoldChecked_ok (n : Nat) :
    ∀ (ids : List Nat) (s : BfsState) (cs : BfsCState),
      BfsInv n s cs → (∀ id ∈ ids, id < n) →
      ∃ cs', ids.foldlM bfsVisitOneChecked cs = Except.ok cs' ∧
        BfsInv n (ids.foldl bfsVisitOne s) cs' := by
  intro ids
  induction ids with
  | nil => intro s cs hinv _; exact ⟨cs, rfl, hinv⟩
  | cons id ids ih =>
      intro s cs hinv hall
      obtain ⟨cs1, hstep, hinv1⟩ :=
        bfsVisitOneChecked_sim n s cs id hinv (hall id (List.mem_cons_self _ _))
      obtain ⟨cs', hfold, hinv'⟩ :=
        ih (bfsVisitOne s id) cs1 hinv1 (fun i hi => hall i (List.mem_cons_of_mem _ hi))
      refine ⟨cs', ?_, hinv'⟩
      rw [List.foldlM_cons, hstep, exceptBind_ok]
      exact hfold

theorem bfsFoldChecked_err (n : Nat) :
    ∀ (ids : List Nat) (s : BfsState) (cs : BfsCState),
      BfsInv n s cs → (∃ id ∈ ids, ¬ id < n) →
      ∀ r, ids.foldlM bfsVisitOneChecked cs ≠ Except.ok r := by
  intro ids
  induction ids with
  | nil => intro s cs _ hex r _; obtain ⟨id, hid, _⟩ := hex; exact absurd hid (List.not_mem_nil _)
  | cons id ids ih =>
      intro s cs hinv hex r hr
      by_cases hid : id < n
      · obtain ⟨cs1, hstep, hinv1⟩ := bfsVisitOneChecked_sim n s cs id hinv hid
        rw [List.foldlM_cons, hstep, exceptBind_ok] at hr
        obtain ⟨bad, hbad, hge⟩ := hex
        rcases List.mem_cons.mp hbad with rfl | hbad2
        · exact hge hid
        · exact ih (bfsVisitOne s id) cs1 hinv1 ⟨bad, hbad2, hge⟩ r hr
      · have hoob : arrayGet cs.visited id = Except.error "visited read out of bounds" := by
          apply arrayGet_oob
          rw [hinv.2.2.1]
          exact hid
        rw [List.foldlM_cons, bfsVisitOneChecked_eq_err cs id _ hoob, exceptBind_error] at hr
        cases hr

theorem bfsLoopChecked_succ_nil (conn : Nat → List Nat) (fuel : Nat) (cs : BfsCState)
    (h : cs.queue = []) : bfsLoopChecked conn (fuel + 1) cs = Except.ok cs := by
  show (match cs.queue with
    | [] => Except.ok cs
    | c :: rest => do
        let s1 ← (conn c).foldlM bfsVisitOneChecked { cs with queue := rest }
        bfsLoopChecked conn fuel s1) = Except.ok cs
  rw [h]

theorem bfsLoopChecked_succ_cons (conn : Nat → List Nat) (fuel : Nat) (cs : BfsCState)
    (c : Nat) (rest : List Nat) (h : cs.queue = c :: rest) :
    bfsLoopChecked conn (fuel + 1) cs =
      ((conn c).foldlM bfsVisitOneChecked { cs with queue := rest } >>= fun s1 =>
        bfsLoopChecked conn fuel s1) := by
  show (match cs.queue with
    | [] => Except.ok cs
    | c :: rest => do
        let s1 ← (conn c).foldlM bfsVisitOneChecked { cs with queue := rest }
        bfsLoopChecked conn fuel s1) = _
  rw [h]

theorem bfsLoopChecked_sim (conn : Nat → List Nat) (n : Nat) :
    ∀ (fuel : Nat) (s : BfsState) (cs : BfsCState),
      BfsInv n s cs → (∀ i ∈ s.touched, i < n) →
      ((∃ r, bfsLoopChecked conn fuel cs = Except.ok r) ↔
        ∀ id ∈ (bfsLoop conn fuel s).touched, id < n) := by
  intro fuel
  induction fuel with
  | zero =>
      intro s cs _ htouch
      constructor
      · intro _
        show ∀ id ∈ (bfsLoop conn 0 s).touched, id < n
        exact htouch
      · intro _
        exact ⟨cs, rfl⟩
  | succ fuel ih =>
      intro s cs hinv htouch
      have hq : cs.queue = s.queue := hinv.2.1
      cases hqs : s.queue with
      | nil =>
          rw [bfsLoop_succ_nil conn fuel s hqs]
          rw [bfsLoopChecked_succ_nil conn fuel cs (by rw [hq, hqs])]
          constructor
          · intro _; exact htouch
          · intro _; exact ⟨cs, rfl⟩
      | cons c rest =>
          have hinv0 : BfsInv n { s with queue := rest } { cs with queue := rest } :=
            ⟨hinv.1, rfl, hinv.2.2.1, hinv.2.2.2.1, hinv.2.2.2.2⟩
          rw [bfsLoop_succ_cons conn fuel s c rest hqs]
          rw [bfsLoopChecked_succ_cons conn fuel cs c rest (by rw [hq, hqs])]
          by_cases hall : ∀ id ∈ conn c, id < n
          · obtain ⟨cs1, hfold, hinv1⟩ :=
              bfsFoldChecked_ok n (conn c) { s with queue := rest } { cs with queue := rest }
                hinv0 hall
            have htouch1 : ∀ i ∈ ((conn c).foldl bfsVisitOne { s with queue := rest }).touched,
                i < n := by
              rw [bfsFold_touched]
              intro i hi
              rcases List.mem_append.mp hi with h1 | h1
              · exact htouch i h1
              · exact hall i h1
            rw [hfold]
            constructor
            · intro ⟨r, hr⟩
              rw [exceptBind_ok] at hr
              exact (ih _ cs1 hinv1 htouch1).mp ⟨r, hr⟩
            · intro hr
              obtain ⟨r, hrr⟩ := (ih _ cs1 hinv1 htouch1).mpr hr
              exact ⟨r, by rw [exceptBind_ok]; exact hrr⟩
          · have hex : ∃ id ∈ conn c, ¬ id < n := by
              by_contra hcon
              push_neg at hcon
              exact hall (fun id hid => hcon id hid)
            obtain ⟨bad, hbad, hge⟩ := hex
            apply iff_of_false
            · rintro ⟨r, hr⟩
              cases hfold : (conn c).foldlM bfsVisitOneChecked { cs with queue := rest } with
              | error e => rw [hfold, exceptBind_error] at hr; cases hr
              | ok cs1 =>
                  exact bfsFoldChecked_err n (conn c) { s with queue := rest }
                    { cs with queue := rest } hinv0 ⟨bad, hbad, hge⟩ cs1 hfold
            · intro hr
              apply hge
              apply hr bad
              obtain ⟨t, ht⟩ := bfsLoop_touched_append conn fuel
                ((conn c).foldl bfsVisitOne { s with queue := rest })
              rw [ht, bfsFold_touched]
              show bad ∈ s.touched ++ conn c ++ t
              rw [List.append_assoc]
              exact List.mem_append.mpr (Or.inr (List.mem_append.mpr (Or.inl hbad)))

/-- Claim C1: the bounds-checked run of `connected_robot_pose_graph`
(where `visited` has exactly its allocated size, the number of current
neighbours) completes without an out-of-bounds access exactly when every
robot id the search touches is below the neighbour count — and the
touched ids are self's id (always touched) plus ids appearing in
received connectivity declarations, so any such id at or above the
neighbour count makes an access fall outside the allocation. -/
theorem visited_array_bounds {P : Type} (st : Machine P) :
    ((∃ r, connected_robot_pose_graph_checked st = Except.ok r) ↔
      ∀ id ∈ bfsTouched st, id < st.current_neighbors.length) ∧
    st.robot_id ∈ bfsTouched st ∧
    ∀ id ∈ bfsTouched st, id = st.robot_id ∨
      ∃ c l, (c, l) ∈ st.received_pose_graphs_connectivity ∧ id ∈ l := by
  have hmem_self : st.robot_id ∈ bfsTouched st := by
    obtain ⟨t, ht⟩ := bfsLoop_touched_append (connOf st) (bfsFuel st)
      { conn_map := bfsInitMap st
        visited := [st.robot_id]
        queue := [st.robot_id]
        touched := [st.robot_id] }
    show st.robot_id ∈ (bfsRun st).touched
    unfold bfsRun
    rw [ht]
    exact List.mem_append.mpr (Or.inl (List.mem_singleton.mpr rfl))
  have hshape : ∀ id ∈ bfsTouched st, id = st.robot_id ∨
      ∃ c l, (c, l) ∈ st.received_pose_graphs_connectivity ∧ id ∈ l := by
    intro id hid
    rcases bfsLoop_touched_shape (connOf st) (bfsFuel st) _ id hid with h1 | ⟨c, hc⟩
    · exact Or.inl (List.mem_singleton.mp h1)
    · obtain ⟨l, hl, hx⟩ := connOf_mem st c id hc
      exact Or.inr ⟨c, l, hl, hx⟩
  refine ⟨?_, hmem_self, hshape⟩
  by_cases hrid : st.robot_id < st.current_neighbors.length
  · have hlenrep : (List.replicate st.current_neighbors.length false).length =
        st.current_neighbors.length := List.length_replicate _ _
    have hset : arraySet (List.replicate st.current_neighbors.length false) st.robot_id true =
        Except.ok ((List.replicate st.current_neighbors.length false).set st.robot_id true) := by
      unfold arraySet
      rw [if_pos (by rw [hlenrep]; exact hrid)]
    have hchk : connected_robot_pose_graph_checked st =
        (bfsLoopChecked (connOf st) (bfsFuel st)
          { conn_map := bfsInitMap st
            visited := (List.replicate st.current_neighbors.length false).set st.robot_id true
            queue := [st.robot_id] } >>= fun s => Except.ok s.conn_map) := by
      unfold connected_robot_pose_graph_checked
      rw [hset]
      rfl
    have hinv : BfsInv st.current_neighbors.length
        { conn_map := bfsInitMap st
          visited := [st.robot_id]
          queue := [st.robot_id]
          touched := [st.robot_id] }
        { conn_map := bfsInitMap st
          visited := (List.replicate st.current_neighbors.length false).set st.robot_id true
          queue := [st.robot_id] } := by
      refine ⟨rfl, rfl, by rw [List.length_set, hlenrep], ?_, ?_⟩
      · intro i
        by_cases hi : i = st.robot_id
        · subst hi
          rw [List.getElem?_set_eq_of_lt true (by rw [hlenrep]; exact hrid)]
          simp
        · rw [List.getElem?_set_ne (fun hEq => hi hEq.symm), List.getElem?_replicate]
          constructor
          · intro h1
            exact absurd (List.mem_singleton.mp h1) hi
          · intro h1
            by_cases h2 : i < st.current_neighbors.length <;> simp [h2] at h1
      · intro i hi
        rw [List.mem_singleton.mp hi]
        exact hrid
    have hiff := bfsLoopChecked_sim (connOf st) st.current_neighbors.length (bfsFuel st)
      _ _ hinv (by intro i hi; rw [List.mem_singleton.mp hi]; exact hrid)
    constructor
    · intro ⟨r, hr⟩
      rw [hchk] at hr
      cases hl : bfsLoopChecked (connOf st) (bfsFuel st)
          { conn_map := bfsInitMap st
            visited := (List.replicate st.current_neighbors.length false).set st.robot_id true
            queue := [st.robot_id] } with
      | error e => rw [hl, exceptBind_error] at hr; cases hr
      | ok s1 => exact hiff.mp ⟨s1, hl⟩
    · intro hr
      obtain ⟨s1, hs1⟩ := hiff.mpr hr
      exact ⟨s1.conn_map, by rw [hchk, hs1]; rfl⟩
  · apply iff_of_false
    · rintro ⟨r, hr⟩
      have herr : arraySet (List.replicate st.current_neighbors.length false) st.robot_id true =
          Except.error "visited write out of bounds" := by
        unfold arraySet
        rw [if_neg (by rw [List.length_replicate]; exact hrid)]
      unfold connected_robot_pose_graph_checked at hr
      rw [herr, exceptBind_error] at hr
      cases hr
    · intro hr
      exact hrid (hr st.robot_id hmem_self)

/-- Witness for claim C1 at a concrete state (robot 0 with no
neighbours: the very first write `visited[0]` on a zero-length
allocation is out of bounds, and indeed 0 is touched while the neighbour
count is 0). -/
theorem visited_array_bounds_witness :
    exMachine2.robot_id ∈ bfsTouched exMachine2 ∧
    ((∃ r, connected_robot_pose_graph_checked exMachine2 = Except.ok r) ↔
      ∀ id ∈ bfsTouched exMachine2, id < exMachine2.current_neighbors.length) :=
  ⟨(visited_array_bounds exMachine2).2.1, (visited_array_bounds exMachine2).1⟩

/-! ### Claims C3, C4 and C8: the aggregator -/

theorem aggregate_ok_inv {P : Type} (st : Machine P) (g : List (BetweenFactor P))
    (e : List (LabeledSymbol × P)) (h : aggregate_pose_graphs st = Except.ok (g, e)) :
    ∃ est0, valuesInsertAll [] st.current_pose_estimates = Except.ok est0 ∧
    ∃ est1, st.current_neighbors.foldlM (estStep st (connected_robot_pose_graph st)) est0 =
        Except.ok est1 ∧
      st.current_neighbors.foldlM (neighborGraphStep st (connected_robot_pose_graph st))
        (st.pose_graph ++ aggLoopClosures st (connected_robot_pose_graph st)) = Except.ok g ∧
      e = est1 := by
  unfold aggregate_pose_graphs at h
  cases h0 : valuesInsertAll [] st.current_pose_estimates with
  | error e0 => rw [h0, exceptBind_error] at h; cases h
  | ok est0 =>
      rw [h0] at h
      simp only [exceptBind_ok] at h
      cases h1 : st.current_neighbors.foldlM (estStep st (connected_robot_pose_graph st)) est0 with
      | error e1 => rw [h1, exceptBind_error] at h; cases h
      | ok est1 =>
          rw [h1] at h
          simp only [exceptBind_ok] at h
          cases h2 : st.current_neighbors.foldlM
              (neighborGraphStep st (connected_robot_pose_graph st))
              (st.pose_graph ++ aggLoopClosures st (connected_robot_pose_graph st)) with
          | error e2 => rw [h2, exceptBind_error] at h; cases h
          | ok g2 =>
              rw [h2] at h
              simp only [exceptBind_ok] at h
              injection h with h
              have hg : g2 = g := congrArg Prod.fst h
              have he : est1 = e := congrArg Prod.snd h
              exact ⟨est0, rfl, est1, h1, congrArg Except.ok hg, he.symm⟩

theorem factorFold_ok_mem {P : Type} (isc : List (Nat × Bool)) :
    ∀ (fs : List (RawFactor P)) (g g' : List (BetweenFactor P)),
      fs.foldlM (factorStep isc) g = Except.ok g' →
      ∀ x ∈ g', x ∈ g ∨
        (assocLookupD isc (ROBOT_ID x.key1.label) false = true ∧
         assocLookupD isc (ROBOT_ID x.key2.label) false = true) := by
  intro fs
  induction fs with
  | nil =>
      intro g g' h x hx
      rw [List.foldlM_nil] at h
      injection h with h
      exact Or.inl (h ▸ hx)
  | cons f fs ih =>
      intro g g' h x hx
      rw [List.foldlM_cons] at h
      cases hstep : factorStep isc g f with
      | error e => rw [hstep, exceptBind_error] at h; cases h
      | ok g1 =>
          rw [hstep, exceptBind_ok] at h
          rcases ih g1 g' h x hx with h1 | h1
          · unfold factorStep at hstep
            cases f with
            | other => rw [show castBetween (RawFactor.other : RawFactor P) =
                  Except.error "null between factor dereference" from rfl,
                exceptBind_error] at hstep
                       cases hstep
            | between bf =>
                rw [show castBetween (RawFactor.between bf) = Except.ok bf from rfl] at hstep
                simp only [exceptBind_ok] at hstep
                by_cases hcond : (assocLookupD isc (ROBOT_ID bf.key1.label) false &&
                    assocLookupD isc (ROBOT_ID bf.key2.label) false) = true
                · rw [if_pos hcond] at hstep
                  injection hstep with hstep
                  rw [← hstep] at h1
                  rcases List.mem_append.mp h1 with h2 | h2
                  · exact Or.inl h2
                  · rw [List.mem_singleton.mp h2]
                    exact Or.inr (by
                      have := Bool.and_eq_true_iff.mp hcond
                      exact this)
                · rw [if_neg hcond] at hstep
                  injection hstep with hstep
                  exact Or.inl (hstep ▸ h1)
          · exact Or.inr h1

theorem graphFold_ok_mem {P : Type} (st : Machine P) (isc : List (Nat × Bool)) :
    ∀ (nbrs : List Nat) (acc g' : List (BetweenFactor P)),
      nbrs.foldlM (neighborGraphStep st isc) acc = Except.ok g' →
      ∀ x ∈ g', x ∈ acc ∨
        (assocLookupD isc (ROBOT_ID x.key1.label) false = true ∧
         assocLookupD isc (ROBOT_ID x.key2.label) false = true) := by
  intro nbrs
  induction nbrs with
  | nil =>
      intro acc g' h x hx
      rw [List.foldlM_nil] at h
      injection h with h
      exact Or.inl (h ▸ hx)
  | cons id nbrs ih =>
      intro acc g' h x hx
      rw [List.foldlM_cons] at h
      cases hstep : neighborGraphStep st isc acc id with
      | error e => rw [hstep, exceptBind_error] at h; cases h
      | ok g1 =>
          rw [hstep, exceptBind_ok] at h
          rcases ih g1 g' h x hx with h1 | h1
          · unfold neighborGraphStep at hstep
            cases hent : getOtherEntry st id with
            | error e2 => rw [hent, exceptBind_error] at hstep; cases hstep
            | ok entry =>
                rw [hent] at hstep
                simp only [exceptBind_ok] at hstep
                exact factorFold_ok_mem isc entry.1 acc g1 hstep x h1
          · exact Or.inr h1

theorem factorFold_ok_between {P : Type} (isc : List (Nat × Bool)) :
    ∀ (fs : List (RawFactor P)) (g g' : List (BetweenFactor P)),
      fs.foldlM (factorStep isc) g = Except.ok g' →
      ∀ f ∈ fs, f ≠ RawFactor.other := by
  intro fs
  induction fs with
  | nil => intro g g' _ f hf; exact absurd hf (List.not_mem_nil f)
  | cons f0 fs ih =>
      intro g g' h f hf
      rw [List.foldlM_cons] at h
      cases hstep : factorStep isc g f0 with
      | error e => rw [hstep, exceptBind_error] at h; cases h
      | ok g1 =>
          rw [hstep, exceptBind_ok] at h
          rcases List.mem_cons.mp hf with rfl | hf2
          · intro hEq
            subst hEq
            rw [show factorStep isc g (RawFactor.other : RawFactor P) =
              Except.error "null between factor dereference" from rfl] at hstep
            cases hstep
          · exact ih g1 g' h f hf2

theorem graphFold_ok_between {P : Type} (st : Machine P) (isc : List (Nat × Bool)) :
    ∀ (nbrs : List Nat) (acc g' : List (BetweenFactor P)),
      nbrs.foldlM (neighborGraphStep st isc) acc = Except.ok g' →
      ∀ id ∈ nbrs, ∀ entry,
        assocLookup st.other_robots_graph_and_estimates id = some entry →
        ∀ f ∈ entry.1, f ≠ RawFactor.other := by
  intro nbrs
  induction nbrs with
  | nil => intro acc g' _ id hid; exact absurd hid (List.not_mem_nil id)
  | cons id0 nbrs ih =>
      intro acc g' h id hid entry hent f hf
      rw [List.foldlM_cons] at h
      cases hstep : neighborGraphStep st isc acc id0 with
      | error e => rw [hstep, exceptBind_error] at h; cases h
      | ok g1 =>
          rw [hstep, exceptBind_ok] at h
          rcases List.mem_cons.mp hid with rfl | hid2
          · unfold neighborGraphStep at hstep
            have hoent : getOtherEntry st id = Except.ok entry := by
              unfold getOtherEntry
              rw [hent]
            rw [hoent] at hstep
            simp only [exceptBind_ok] at hstep
            exact factorFold_ok_between isc entry.1 acc g1 hstep f hf
          · exact ih g1 g' h id hid2 entry hent f hf

theorem lcFold_mem {P : Type} (st : Machine P) (isc : List (Nat × Bool)) :
    ∀ (pairs : List (Nat × Nat)) (acc : List (BetweenFactor P)) (f : BetweenFactor P),
      f ∈ pairs.foldl (lcStep st isc) acc ↔
        f ∈ acc ∨ ∃ pr, pr ∈ pairs ∧
          (assocLookupD isc pr.1 false && assocLookupD isc pr.2 false) = true ∧
          f ∈ st.inter_robot_loop_closures (Nat.min pr.1 pr.2, Nat.max pr.1 pr.2) := by
  intro pairs
  induction pairs with
  | nil => intro acc f; simp
  | cons pr pairs ih =>
      intro acc f
      rw [List.foldl_cons, ih]
      unfold lcStep
      by_cases hcond : (assocLookupD isc pr.1 false && assocLookupD isc pr.2 false) = true
      · rw [if_pos hcond]
        simp only [List.mem_cons, exists_eq_or_imp, hcond, true_and, List.mem_append]
        tauto
      · rw [if_neg hcond]
        simp only [List.mem_cons, exists_eq_or_imp, hcond, Bool.false_eq_true, false_and,
          false_or]

theorem estFold_collision {P : Type} (st : Machine P) (isc : List (Nat × Bool)) :
    ∀ (nbrs : List Nat) (acc : List (LabeledSymbol × P)) (nb : Nat)
      (entry : List (RawFactor P) × List (LabeledSymbol × P)) (kv : LabeledSymbol × P),
      nb ∈ nbrs → assocLookupD isc nb false = true →
      assocLookup st.other_robots_graph_and_estimates nb = some entry →
      kv ∈ entry.2 → valuesContains acc kv.1 = true →
      ∀ r, nbrs.foldlM (estStep st isc) acc ≠ Except.ok r := by
  intro nbrs
  induction nbrs with
  | nil => intro acc nb entry kv hnb; exact absurd hnb (List.not_mem_nil nb)
  | cons id0 nbrs ih =>
      intro acc nb entry kv hnb hconn hent hkv hcontains r h
      rw [List.foldlM_cons] at h
      cases hstep : estStep st isc acc id0 with
      | error e => rw [hstep, exceptBind_error] at h; cases h
      | ok acc1 =>
          rw [hstep, exceptBind_ok] at h
          rcases List.mem_cons.mp hnb with rfl | hnb2
          · unfold estStep at hstep
            rw [if_pos hconn] at hstep
            have hoent : getOtherEntry st nb = Except.ok entry := by
              unfold getOtherEntry
              rw [hent]
            rw [hoent] at hstep
            simp only [exceptBind_ok] at hstep
            exact valuesInsertAll_collision entry.2 acc kv hkv hcontains acc1 hstep
          · have hmono : valuesContains acc1 kv.1 = true := by
              unfold estStep at hstep
              by_cases hc : assocLookupD isc id0 false = true
              · rw [if_pos hc] at hstep
                cases hoe : getOtherEntry st id0 with
                | error e2 => rw [hoe, exceptBind_error] at hstep; cases hstep
                | ok ent2 =>
                    rw [hoe] at hstep
                    simp only [exceptBind_ok] at hstep
                    rw [valuesInsertAll_ok_eq ent2.2 acc acc1 hstep, valuesContains_append,
                      hcontains]
                    rfl
              · rw [if_neg hc] at hstep
                injection hstep with hstep
                rw [← hstep]
                exact hcontains
            exact ih acc1 nb entry kv hnb2 hconn hent hkv hmono r h

/-- Claim C3: under the structural invariants of the store (every local
factor references only this robot's symbols; every stored loop closure
of a pair references exactly that pair), every factor of a successfully
aggregated joint graph has both endpoint robot ids mapped to true by the
connectivity map of the same run; nothing with a false or absent
endpoint id is included. -/
theorem aggregate_connected_endpoints {P : Type} (st : Machine P)
    (g : List (BetweenFactor P)) (e : List (LabeledSymbol × P))
    (hloc : ∀ f ∈ st.pose_graph,
      ROBOT_ID f.key1.label = st.robot_id ∧ ROBOT_ID f.key2.label = st.robot_id)
    (hstore : ∀ (i j : Nat) (f : BetweenFactor P), f ∈ st.inter_robot_loop_closures (i, j) →
      (ROBOT_ID f.key1.label = i ∧ ROBOT_ID f.key2.label = j) ∨
      (ROBOT_ID f.key1.label = j ∧ ROBOT_ID f.key2.label = i))
    (hok : aggregate_pose_graphs st = Except.ok (g, e)) :
    ∀ f ∈ g,
      assocLookupD (connected_robot_pose_graph st) (ROBOT_ID f.key1.label) false = true ∧
      assocLookupD (connected_robot_pose_graph st) (ROBOT_ID f.key2.label) false = true := by
  obtain ⟨est0, _, est1, _, h2, _⟩ := aggregate_ok_inv st g e hok
  intro f hf
  have hself : assocLookupD (connected_robot_pose_graph st) st.robot_id false = true :=
    bfsLoop_map_true_mono (connOf st) (bfsFuel st) _ st.robot_id (bfsInitMap_self st)
  rcases graphFold_ok_mem st (connected_robot_pose_graph st) st.current_neighbors _ g h2 f hf
    with h3 | h3
  · rcases List.mem_append.mp h3 with h4 | h4
    · have := hloc f h4
      rw [this.1, this.2]
      exact ⟨hself, hself⟩
    · rcases (lcFold_mem st (connected_robot_pose_graph st) _ [] f).mp h4 with h5 | h5
      · exact absurd h5 (List.not_mem_nil f)
      · obtain ⟨pr, _, hcond, hf2⟩ := h5
        have hcc := Bool.and_eq_true_iff.mp hcond
        have hends := hstore (Nat.min pr.1 pr.2) (Nat.max pr.1 pr.2) f hf2
        have hmm := min_max_cases pr.1 pr.2
        rcases hends with ⟨he1, he2⟩ | ⟨he1, he2⟩ <;> rw [he1, he2] <;>
          rcases hmm with ⟨h6, h7⟩ | ⟨h6, h7⟩ <;> rw [h6, h7] <;>
            exact ⟨by tauto, by tauto⟩
  · exact h3

/-- Robot 0 with a single local odometry factor and no neighbours. -/
def exMachine3 : Machine PUnit :=
  { initMachine PUnit 0 3 60 with
    pose_graph := [⟨localSymbol 0 0, localSymbol 0 1, PUnit.unit, defaultNoiseModel⟩]
    current_pose_estimates := [(localSymbol 0 0, PUnit.unit)] }

/-- Witness for claim C3 at a concrete aggregation. -/
theorem aggregate_connected_endpoints_witness :
    aggregate_pose_graphs exMachine3 =
      Except.ok (exMachine3.pose_graph, exMachine3.current_pose_estimates) ∧
    ∀ f ∈ exMachine3.pose_graph,
      assocLookupD (connected_robot_pose_graph exMachine3) (ROBOT_ID f.key1.label) false = true ∧
      assocLookupD (connected_robot_pose_graph exMachine3) (ROBOT_ID f.key2.label) false = true :=
  ⟨rfl, aggregate_connected_endpoints exMachine3 _ _ (by decide)
    (fun i j f hf => absurd hf (List.not_mem_nil f)) rfl⟩

/-- Claim C4 (amended): if some received factor of a current neighbour is
not a between-factor, aggregation does not drop it and continue — the
unchecked dereference of the failed downcast aborts the aggregation with
an error, and no joint graph is produced. -/
theorem aggregate_malformed_errors {P : Type} (st : Machine P)
    (h : ∃ id ∈ st.current_neighbors, ∃ entry,
      assocLookup st.other_robots_graph_and_estimates id = some entry ∧
      RawFactor.other ∈ entry.1) :
    ∃ e, aggregate_pose_graphs st = Except.error e := by
  apply except_not_ok_error
  intro r hok
  cases r with
  | mk g e =>
      obtain ⟨id, hid, entry, hent, hother⟩ := h
      obtain ⟨_, _, _, _, h2, _⟩ := aggregate_ok_inv st g e hok
      exact graphFold_ok_between st _ st.current_neighbors _ g h2 id hid entry hent
        RawFactor.other hother rfl

/-- Robot 0 whose neighbour 1 sent one factor that is not a
between-factor. -/
def exMachine4 : Machine PUnit :=
  { initMachine PUnit 0 3 60 with
    current_neighbors := [1]
    current_pose_estimates := [(localSymbol 0 0, PUnit.unit)]
    other_robots_graph_and_estimates := [(1, ([RawFactor.other], []))] }

/-- Counterexample to claim C4 as stated: the malformed factor is not
dropped; the aggregation run aborts with the null-dereference error, so
the round does not continue to a joint graph. -/
theorem aggregate_malformed_cex :
    (1 ∈ exMachine4.current_neighbors) ∧
    assocLookup exMachine4.other_robots_graph_and_estimates 1 =
      some ([RawFactor.other], []) ∧
    aggregate_pose_graphs exMachine4 = Except.error "null between factor dereference" :=
  ⟨by decide, rfl, rfl⟩

/-- Witness for claim C4 (amended) at the same concrete state. -/
theorem aggregate_malformed_errors_witness :
    (∃ id ∈ exMachine4.current_neighbors, ∃ entry,
      assocLookup exMachine4.other_robots_graph_and_estimates id = some entry ∧
      RawFactor.other ∈ entry.1) ∧
    ∃ e, aggregate_pose_graphs exMachine4 = Except.error e :=
  ⟨⟨1, by decide, ([RawFactor.other], []), rfl, by decide⟩,
    aggregate_malformed_errors exMachine4
      ⟨1, by decide, ([RawFactor.other], []), rfl, by decide⟩⟩

/-- Claim C8 (amended): if a symbol is present both in self's estimates
and in the received values of a connected neighbour, the aggregator does
not complete — the duplicate-key insert throws, modelled as an error.
(Self's estimate does not silently take precedence.) -/
theorem aggregate_shared_symbol_errors {P : Type} (st : Machine P)
    (h : ∃ id ∈ st.current_neighbors,
      assocLookupD (connected_robot_pose_graph st) id false = true ∧
      ∃ entry, assocLookup st.other_robots_graph_and_estimates id = some entry ∧
      ∃ kv ∈ entry.2, valuesContains st.current_pose_estimates kv.1 = true) :
    ∃ e, aggregate_pose_graphs st = Except.error e := by
  apply except_not_ok_error
  intro r hok
  cases r with
  | mk g e =>
      obtain ⟨est0, h0, est1, h1, _, _⟩ := aggregate_ok_inv st g e hok
      obtain ⟨id, hid, hconn, entry, hent, kv, hkv, hc⟩ := h
      have hc0 : valuesContains est0 kv.1 = true := by
        rw [valuesInsertAll_ok_eq _ [] est0 h0]
        simpa using hc
      exact estFold_collision st (connected_robot_pose_graph st) st.current_neighbors est0
        id entry kv hid hconn hent hkv hc0 est1 h1

/-- Robot 0 whose connected neighbour 1 sent values containing the very
symbol robot 0 already estimates. -/
def exMachine8 : Machine PUnit :=
  { initMachine PUnit 0 3 60 with
    current_neighbors := [1]
    current_pose_estimates := [(localSymbol 0 0, PUnit.unit)]
    received_pose_graphs_connectivity := [(0, [1])]
    other_robots_graph_and_estimates := [(1, ([], [(localSymbol 0 0, PUnit.unit)]))] }

/-- Counterexample to claim C8 as stated: with a shared symbol between
self and a connected neighbour the aggregator raises the duplicate-key
error instead of completing with self's value taking precedence. -/
theorem aggregate_shared_symbol_cex :
    valuesContains exMachine8.current_pose_estimates (localSymbol 0 0) = true ∧
    assocLookup exMachine8.other_robots_graph_and_estimates 1 =
      some ([], [(localSymbol 0 0, PUnit.unit)]) ∧
    assocLookupD (connected_robot_pose_graph exMachine8) 1 false = true ∧
    aggregate_pose_graphs exMachine8 = Except.error "values key already exists" :=
  ⟨by decide, rfl, by decide, rfl⟩

/-- Witness for claim C8 (amended) at the same concrete state. -/
theorem aggregate_shared_symbol_errors_witness :
    (∃ id ∈ exMachine8.current_neighbors,
      assocLookupD (connected_robot_pose_graph exMachine8) id false = true ∧
      ∃ entry, assocLookup exMachine8.other_robots_graph_and_estimates id = some entry ∧
      ∃ kv ∈ entry.2, valuesContains exMachine8.current_pose_estimates kv.1 = true) ∧
    ∃ e, aggregate_pose_graphs exMachine8 = Except.error e :=
  ⟨⟨1, by decide, by decide, ([], [(localSymbol 0 0, PUnit.unit)]), rfl,
      (localSymbol 0 0, PUnit.unit), by decide, by decide⟩,
    aggregate_shared_symbol_errors exMachine8
      ⟨1, by decide, by decide, ([], [(localSymbol 0 0, PUnit.unit)]), rfl,
        (localSymbol 0 0, PUnit.unit), by decide, by decide⟩⟩

end Cslam
